import Mathlib

/-!
The storage engine of `assoofs.c`

A shallow embedding of the block allocator, the inode store, the directory
code, the read and write paths and the mount check of `assoofs.c`, and
theorems about them.

Conventions of the embedding.

* A mounted filesystem is a value of `Fs`.  The superblock `sb->s_fs_info`
  aliases the buffer of block 0, so there is one copy of it.  The inode store
  (block 1) is an array of `assoofs_inode_info` indexed by slot; every pointer
  to an inode record that the code handles (`i_private`, the result of
  `assoofs_get_inode_info`) points into that array and is represented by its
  slot index.  Slots past the end of the block stand for the memory that
  follows the buffer.  A data block is seen either as an array of directory
  records or as an array of bytes; the two views are kept apart.
* Blocks 0 and 1 are the superblock and the inode store and are kept in `sb`
  and `inode_store` only.  A store that the code makes through the
  `data_block_number` of a record (the bytes of `assoofs_write`, the directory
  record of `assoofs_create`) is embedded as a store into `data_block` or
  `dir_block`: this is what the code does when that number is one of a data
  block (2 to 63) and the store ends inside the block.  `Op.in_data_blocks`
  says so of a request, and the theorems about writes and about sequences of
  requests assume it.
* `uint64_t` values are natural numbers, reduced modulo `2 ^ 64` where the code
  computes them; `int` values are integers.
* The three mutexes are flags of `Fs`.  A call that can block returns an
  `Option`: `none` says that the call never returns.
* The buffer cache is the state: `mark_buffer_dirty`, `sync_dirty_buffer`,
  `brelse` and `assoofs_sb_sync` (which stores into `b_data` the pointer it
  already holds) change nothing in it.
-/

namespace Assoofs

/-! ## Machine integers and kernel constants -/

/-- Conversion of a C integer to `uint64_t`. -/
def toU64 (x : Int) : Nat := (x % 2 ^ 64).toNat

/-- The errno value `EINTR` of the kernel headers. -/
def EINTR : Int := 4

/-- File type mask `S_IFMT` of the kernel headers. -/
def S_IFMT : Nat := 0o170000

/-- Directory type bits `S_IFDIR` of the kernel headers. -/
def S_IFDIR : Nat := 0o040000

/-- Regular file type bits `S_IFREG` of the kernel headers. -/
def S_IFREG : Nat := 0o100000

/-- The kernel macro `S_ISDIR`. -/
def S_ISDIR (m : Nat) : Bool := (m &&& S_IFMT) == S_IFDIR

/-- The kernel macro `S_ISREG`. -/
def S_ISREG (m : Nat) : Bool := (m &&& S_IFMT) == S_IFREG

/-- Modelled from the spec: `ASSOOFS_MAX_FILESYSTEM_OBJECTS_SUPPORTED` is declared in
`assoofs.h`, which is not among the sources.  The spec bounds the number of objects by
the width of the free-block mask, a 64-bit word with one bit per block. -/
def ASSOOFS_MAX_FILESYSTEM_OBJECTS_SUPPORTED : Nat := 64

/-- What the build fixes and `assoofs.c` does not: the two inode-number constants of
`assoofs.h`, and the value the target gives to `1 << i` on an `int` when `i` is 32 or
more, which C leaves undefined. -/
structure Build where
  ASSOOFS_START_INO : Int
  ASSOOFS_RESERVED_INODES : Int
  wide_shift : Nat → Int

/-- The C expression `1 << i` on a 32-bit `int`.  Below 31 it is the power of two; at 31
the kernel's compiler yields the most negative `int`; from 32 on the build decides. -/
def shl_one (wide : Nat → Int) (i : Nat) : Int :=
  if i < 31 then 2 ^ i else if i = 31 then -(2 ^ 31) else wide i

/-! ## Data model -/

/-- Modelled from the spec: the superblock record of `assoofs.h` (magic, version, block
size, inode count, free-block mask). -/
structure assoofs_super_block_info where
  version : Nat
  magic : Nat
  block_size : Nat
  inodes_count : Nat
  free_blocks : Nat
deriving DecidableEq

/-- Modelled from the spec: the inode record of `assoofs.h`.  `file_size` and
`dir_children_count` are one storage slot, read under either name. -/
structure assoofs_inode_info where
  mode : Nat
  inode_no : Nat
  data_block_number : Nat
  file_size : Nat
deriving DecidableEq

/-- The directory reading of the shared storage slot. -/
@[reducible] def assoofs_inode_info.dir_children_count (i : assoofs_inode_info) : Nat :=
  i.file_size

/-- Modelled from the spec: the directory record of `assoofs.h`.  `filename` is the C
string held by the name buffer. -/
structure assoofs_dir_record_entry where
  filename : String
  inode_no : Nat
deriving DecidableEq

/-- The three mutexes of `assoofs.c`. -/
inductive Mutex where
  | assoofs_sb_lock
  | assoofs_inodes_mgmt_lock
  | assoofs_directory_children_update_lock
deriving DecidableEq

/-- A mounted filesystem.  `found_free` is a history of the block numbers the allocator
has handed out, latest first: one entry for each
"Call finished. Found %d block free." line it logs. -/
structure Fs where
  sb : assoofs_super_block_info
  inode_store : Nat → assoofs_inode_info
  dir_block : Nat → Nat → assoofs_dir_record_entry
  data_block : Nat → Nat → Nat
  sb_lock : Bool
  inodes_mgmt_lock : Bool
  directory_children_update_lock : Bool
  found_free : List Nat

/-- Whether a mutex is held. -/
def Fs.locked (s : Fs) : Mutex → Bool
  | Mutex.assoofs_sb_lock => s.sb_lock
  | Mutex.assoofs_inodes_mgmt_lock => s.inodes_mgmt_lock
  | Mutex.assoofs_directory_children_update_lock => s.directory_children_update_lock

/-- Set the flag of a mutex. -/
def Fs.set_lock (s : Fs) (m : Mutex) (b : Bool) : Fs :=
  match m with
  | Mutex.assoofs_sb_lock => { s with sb_lock := b }
  | Mutex.assoofs_inodes_mgmt_lock => { s with inodes_mgmt_lock := b }
  | Mutex.assoofs_directory_children_update_lock =>
    { s with directory_children_update_lock := b }

/-- Store a record into a slot of the inode store. -/
def Fs.set_inode (s : Fs) (slot : Nat) (r : assoofs_inode_info) : Fs :=
  { s with inode_store := Function.update s.inode_store slot r }

/-- The kernel's `mutex_lock_interruptible`.  A free mutex is taken at once and the
call returns 0.  On a held mutex the caller sleeps: when a signal reaches it (`sig`) the
call returns `-EINTR` without the mutex, otherwise nobody in this model releases the
mutex and the call never returns. -/
def mutex_lock_interruptible (sig : Bool) (m : Mutex) (s : Fs) : Option (Int × Fs) :=
  if s.locked m then
    if sig then some (-EINTR, s) else none
  else some (0, s.set_lock m true)

/-- The kernel's `mutex_unlock`. -/
def mutex_unlock (m : Mutex) (s : Fs) : Fs := s.set_lock m false

/-! ## `assoofs_get_inode_info` -/

/-- The loop of `assoofs_get_inode_info`: `n` iterations left, `i` the slot the pointer
`a_inode` designates.  It stops on the first slot whose `inode_no` is `ino`. -/
def inode_scan (store : Nat → assoofs_inode_info) (ino : Nat) : Nat → Nat → Nat
  | 0, i => i
  | n + 1, i => if (store i).inode_no = ino then i else inode_scan store ino n (i + 1)

/-- `assoofs_get_inode_info`: the slot designated by the returned pointer.  The pointer
is `b_data` advanced by that many records, so it is never `NULL`. -/
def assoofs_get_inode_info (s : Fs) (ino : Nat) : Nat :=
  inode_scan s.inode_store ino s.sb.inodes_count 0

/-- `assoofs_search_inode_info`: `none` is the `NULL` result.  The loop advances `start`
while the numbers differ and fewer than `inodes_count` steps were made; the record at the
final position decides. -/
def assoofs_search_inode_info (s : Fs) (start : Nat) (search : assoofs_inode_info) :
    Option Nat :=
  let stop := inode_scan s.inode_store search.inode_no s.sb.inodes_count start
  if (s.inode_store stop).inode_no = search.inode_no then some stop else none

/-! ## `assoofs_sb_get_a_freeblock` -/

/-- The loop of `assoofs_sb_get_a_freeblock`: `n` iterations left, `i` the loop
variable.  It stops on the first `i` with `free_blocks & (1 << i)` non-zero. -/
def freeblock_scan (wide : Nat → Int) (free_blocks : Nat) : Nat → Nat → Nat
  | 0, i => i
  | n + 1, i =>
    if free_blocks &&& toU64 (shl_one wide i) ≠ 0 then i
    else freeblock_scan wide free_blocks n (i + 1)

/-- `assoofs_sb_get_a_freeblock`.  `block` is the value of `*block` at the call; the
result is the return value, the value of `*block` at the return, and the state. -/
def assoofs_sb_get_a_freeblock (B : Build) (sig : Bool) (block : Nat) (s : Fs) :
    Option (Int × Nat × Fs) :=
  match mutex_lock_interruptible sig Mutex.assoofs_sb_lock s with
  | none => none
  | some (r, s1) =>
    if r ≠ 0 then some (-1, block, s1)
    else
      let i := freeblock_scan B.wide_shift s1.sb.free_blocks
        (ASSOOFS_MAX_FILESYSTEM_OBJECTS_SUPPORTED - 2) 2
      if i ≥ ASSOOFS_MAX_FILESYSTEM_OBJECTS_SUPPORTED then some (-1, block, s1)
      else
        let s2 : Fs :=
          { s1 with
            sb := { s1.sb with
              free_blocks := s1.sb.free_blocks &&& toU64 (-(shl_one B.wide_shift i) - 1) }
            found_free := i :: s1.found_free }
        some (0, i, mutex_unlock Mutex.assoofs_sb_lock s2)

/-! ## `assoofs_inode_add_info` and `assoofs_inode_save` -/

/-- `assoofs_inode_add_info`.  The function returns nothing; `inode` is the record the
argument points to.  An interrupted wait makes it return early, the second one with
`assoofs_inodes_mgmt_lock` still held. -/
def assoofs_inode_add_info (sig : Bool) (inode : assoofs_inode_info) (s : Fs) :
    Option Fs :=
  match mutex_lock_interruptible sig Mutex.assoofs_inodes_mgmt_lock s with
  | none => none
  | some (r, s1) =>
    if r ≠ 0 then some s1
    else
      match mutex_lock_interruptible sig Mutex.assoofs_sb_lock s1 with
      | none => none
      | some (r2, s2) =>
        if r2 ≠ 0 then some s2
        else
          let s3 := s2.set_inode s2.sb.inodes_count inode
          let s4 : Fs :=
            { s3 with sb := { s3.sb with inodes_count := (s3.sb.inodes_count + 1) % 2 ^ 64 } }
          some (mutex_unlock Mutex.assoofs_inodes_mgmt_lock
            (mutex_unlock Mutex.assoofs_sb_lock s4))

/-- `assoofs_inode_save`; `i_inode` is the record the argument points to.  The pointer
`inode_iterator` comes from `assoofs_get_inode_info` and is never `NULL`, so the branch
that returns `-EIO` is never taken and the copy is always made. -/
def assoofs_inode_save (sig : Bool) (i_inode : assoofs_inode_info) (s : Fs) :
    Option (Int × Fs) :=
  match mutex_lock_interruptible sig Mutex.assoofs_sb_lock s with
  | none => none
  | some (r, s1) =>
    if r ≠ 0 then some (-EINTR, s1)
    else
      let inode_iterator := assoofs_get_inode_info s1 i_inode.inode_no
      let s2 := s1.set_inode inode_iterator i_inode
      some (0, mutex_unlock Mutex.assoofs_sb_lock s2)

/-! ## `assoofs_get_inode` and `assoofs_lookup` -/

/-- The fields of the kernel's `struct inode` that `assoofs.c` sets: the inode number,
the mode, the slot `i_private` points to, and whether `i_fop` is the directory
operations. -/
structure vfs_inode where
  i_ino : Nat
  i_mode : Nat
  i_private : Nat
  i_fop_dir : Bool
deriving DecidableEq

/-- `assoofs_get_inode`. -/
def assoofs_get_inode (s : Fs) (ino : Nat) : vfs_inode :=
  let a_inode := assoofs_get_inode_info s ino
  { i_ino := ino, i_mode := 0, i_private := a_inode,
    i_fop_dir := S_ISDIR (s.inode_store a_inode).mode }

/-- The loop of `assoofs_lookup`: `n` iterations left, `i` the index of `record`.  The
result is the index of the first record whose name compares equal. -/
def lookup_scan (records : Nat → assoofs_dir_record_entry) (name : String) :
    Nat → Nat → Option Nat
  | 0, _ => none
  | n + 1, i =>
    if (records i).filename = name then some i else lookup_scan records name n (i + 1)

/-- `assoofs_lookup`.  The function always returns `NULL`; what it does is to bind the
dentry to an inode with `d_add`, or not.  The result is the inode it binds, if any.
`parent_inode` is the slot the parent's `i_private` points to. -/
def assoofs_lookup (parent_inode : Nat) (name : String) (s : Fs) : Option vfs_inode :=
  let i_parent := s.inode_store parent_inode
  let records := s.dir_block i_parent.data_block_number
  match lookup_scan records name i_parent.dir_children_count 0 with
  | none => none
  | some i =>
    let inode := assoofs_get_inode s (records i).inode_no
    some { inode with i_mode := (s.inode_store inode.i_private).mode }

/-! ## `assoofs_create` and `assoofs_mkdir` -/

/-- `assoofs_create`: the return value and the state.  `dir` is the slot the parent's
`i_private` points to.  `i_info` is a pointer into the inode store, so the stores through
it change that slot at once.  The directory record goes into the block the parent's
`data_block_number` names, seen as directory records (`dir_block`): the embedding is that
of the code when this block is not block 0 or 1, whose contents are `sb` and
`inode_store`. -/
def assoofs_create (B : Build) (sig : Bool) (dir : Nat) (name : String) (mode : Nat)
    (s : Fs) : Option (Int × Fs) :=
  match mutex_lock_interruptible sig Mutex.assoofs_directory_children_update_lock s with
  | none => none
  | some (r, s0) =>
    if r ≠ 0 then some (-EINTR, s0)
    else
      let count := s0.sb.inodes_count
      let i_ino := toU64 (count + B.ASSOOFS_START_INO - B.ASSOOFS_RESERVED_INODES + 1)
      let i_info := assoofs_get_inode_info s0 i_ino
      let s1 := s0.set_inode i_info { (s0.inode_store i_info) with inode_no := i_ino }
      let s2 := s1.set_inode i_info { (s1.inode_store i_info) with mode := mode }
      let s3 :=
        if S_ISDIR mode then s2.set_inode i_info { (s2.inode_store i_info) with file_size := 0 }
        else if S_ISREG mode then
          s2.set_inode i_info { (s2.inode_store i_info) with file_size := 0 }
        else s2
      match assoofs_sb_get_a_freeblock B sig (s3.inode_store i_info).data_block_number s3 with
      | none => none
      | some (i, block, s4) =>
        let s5 := s4.set_inode i_info { (s4.inode_store i_info) with data_block_number := block }
        if i < 0 then some (i, s5)
        else
          match assoofs_inode_add_info sig (s5.inode_store i_info) s5 with
          | none => none
          | some s6 =>
            let parent_dir_inode := s6.inode_store dir
            let record : assoofs_dir_record_entry :=
              { inode_no := (s6.inode_store i_info).inode_no, filename := name }
            let s7 : Fs :=
              { s6 with
                dir_block := Function.update s6.dir_block parent_dir_inode.data_block_number
                  (Function.update (s6.dir_block parent_dir_inode.data_block_number)
                    parent_dir_inode.dir_children_count record) }
            let s8 := s7.set_inode dir
              { (s7.inode_store dir) with
                file_size := ((s7.inode_store dir).dir_children_count + 1) % 2 ^ 64 }
            match assoofs_inode_save sig (s8.inode_store dir) s8 with
            | none => none
            | some (r2, s9) => if r2 ≠ 0 then some (r2, s9) else some (0, s9)

/-- `assoofs_mkdir`. -/
def assoofs_mkdir (B : Build) (sig : Bool) (dir : Nat) (name : String) (mode : Nat)
    (s : Fs) : Option (Int × Fs) :=
  assoofs_create B sig dir name (S_IFDIR ||| mode) s

/-! ## `assoofs_write` -/

/-- The effect of `copy_from_user(buffer, buf, len)` on the bytes of a block: the bytes
of `buf` land from offset `pos` on. -/
def copy_from_user (bytes : Nat → Nat) (pos : Nat) (buf : List Nat) : Nat → Nat :=
  fun k => if pos ≤ k ∧ k < pos + buf.length then buf.getD (k - pos) 0 else bytes k

/-- `assoofs_write`: the return value, the new `*ppos`, and the state.  `filp` is the
slot the file's `i_private` points to, `buf` the user's bytes (`len` is their number),
`ppos` the value of `*ppos`.  The block is read and the user buffer is readable: the two
early returns of 0 for a failed `sb_bread` and a failed `copy_from_user` are not taken.
The bytes go into the block the record's `data_block_number` names, seen as bytes
(`data_block`): the embedding is that of the code when this block is not block 0 or 1,
whose contents are `sb` and `inode_store`, and for the bytes that land inside the block;
where the bytes past the end of the buffer land is not part of the state. -/
def assoofs_write (sig : Bool) (filp : Nat) (buf : List Nat) (ppos : Nat) (s : Fs) :
    Option (Int × Nat × Fs) :=
  let blk := (s.inode_store filp).data_block_number
  let s1 : Fs :=
    { s with
      data_block :=
        Function.update s.data_block blk (copy_from_user (s.data_block blk) ppos buf) }
  let ppos1 := ppos + buf.length
  let s2 := s1.set_inode filp { (s1.inode_store filp) with file_size := ppos1 % 2 ^ 64 }
  match assoofs_inode_save sig (s2.inode_store filp) s2 with
  | none => none
  | some (_, s3) =>
    match mutex_lock_interruptible sig Mutex.assoofs_inodes_mgmt_lock s3 with
    | none => none
    | some (r, s4) =>
      if r ≠ 0 then some (-EINTR, ppos1, s4)
      else
        let s5 := s4.set_inode filp { (s4.inode_store filp) with file_size := ppos1 % 2 ^ 64 }
        match assoofs_inode_save sig (s5.inode_store filp) s5 with
        | none => none
        | some (ret_value, s6) =>
          let len : Int := if ret_value ≠ 0 then ret_value else (buf.length : Int)
          some (len, ppos1, mutex_unlock Mutex.assoofs_inodes_mgmt_lock s6)

/-! ## `assoofs_read`, `assoofs_iterate` and `assoofs_fill_super` -/

/-- Modelled from the spec: `ASSOOFS_ROOTDIR_INODE_NUMBER` is declared in `assoofs.h`,
which is not among the sources.  The spec reserves inode 1 for the root directory. -/
def ASSOOFS_ROOTDIR_INODE_NUMBER : Nat := 1

/-- Constants of `assoofs.h` that `assoofs.c` uses outside the allocator and the creation
path: the magic number, the block size, and the size in bytes of a directory record. -/
structure Header where
  ASSOOFS_MAGIC : Nat
  ASSOOFS_DEFAULT_BLOCK_SIZE : Nat
  sizeof_dir_record_entry : Nat

/-- `assoofs_read`: the return value, the bytes `copy_to_user` delivers, and the new
`*ppos`.  `filp` is the slot the file's `i_private` points to, `len` the length asked
for, `ppos` the value of `*ppos`.  The function stores nothing into the filesystem.  The
block is read and the user buffer is writable: the two early returns for a failed
`sb_bread` and a failed `copy_to_user` are not taken. -/
def assoofs_read (filp : Nat) (len : Nat) (ppos : Nat) (s : Fs) : Int × List Nat × Nat :=
  let i_inode := s.inode_store filp
  if ppos ≥ i_inode.file_size then (0, [], ppos)
  else
    let buffer := s.data_block i_inode.data_block_number
    let nbytes := min i_inode.file_size len
    ((nbytes : Int), (List.range nbytes).map buffer, ppos + nbytes)

/-- `assoofs_iterate`: the return value, the entries passed to `dir_emit` in order (name
and inode number), and the new `ctx->pos`.  `filp` is the slot the directory's
`i_private` points to, `pos` the value of `ctx->pos`. -/
def assoofs_iterate (H : Header) (filp : Nat) (pos : Nat) (s : Fs) :
    Int × List (String × Nat) × Nat :=
  if pos ≠ 0 then (0, [], pos)
  else
    let i_info := s.inode_store filp
    if ¬ S_ISDIR i_info.mode then (-1, [], pos)
    else
      let record := s.dir_block i_info.data_block_number
      (0, (List.range i_info.dir_children_count).map
            (fun i => ((record i).filename, (record i).inode_no)),
        pos + i_info.dir_children_count * H.sizeof_dir_record_entry)

/-- `assoofs_fill_super`: the return value and, when the mount is accepted, the root
inode handed to `d_make_root`.  The superblock read from block 0 is `s.sb`. -/
def assoofs_fill_super (H : Header) (s : Fs) : Int × Option vfs_inode :=
  let sb_disk := s.sb
  if sb_disk.magic ≠ H.ASSOOFS_MAGIC then (-1, none)
  else if sb_disk.block_size ≠ H.ASSOOFS_DEFAULT_BLOCK_SIZE then (-1, none)
  else
    (0, some { i_ino := ASSOOFS_ROOTDIR_INODE_NUMBER, i_mode := S_IFDIR,
               i_private := assoofs_get_inode_info s 1, i_fop_dir := true })

/-! ## Sequences of operations -/

/-- One request to the filesystem.  Each carries `sig`, whether a signal reaches the
caller while it sleeps on a mutex. -/
inductive Op where
  | get_a_freeblock (sig : Bool) (block : Nat)
  | create (sig : Bool) (dir : Nat) (name : String) (mode : Nat)
  | mkdir (sig : Bool) (dir : Nat) (name : String) (mode : Nat)
  | write (sig : Bool) (filp : Nat) (buf : List Nat) (ppos : Nat)
  | lookup (parent_inode : Nat) (name : String)
  | read (filp : Nat) (len : Nat) (ppos : Nat)
  | iterate (filp : Nat) (pos : Nat)

/-- The state after one request; `none` when the request never returns. -/
def Op.step (B : Build) (s : Fs) : Op → Option Fs
  | Op.get_a_freeblock sig block =>
    (assoofs_sb_get_a_freeblock B sig block s).map (fun r => r.2.2)
  | Op.create sig dir name mode => (assoofs_create B sig dir name mode s).map (fun r => r.2)
  | Op.mkdir sig dir name mode => (assoofs_mkdir B sig dir name mode s).map (fun r => r.2)
  | Op.write sig filp buf ppos => (assoofs_write sig filp buf ppos s).map (fun r => r.2.2)
  | Op.lookup _ _ => some s
  | Op.read _ _ _ => some s
  | Op.iterate _ _ => some s

/-- The state after a sequence of requests, made one after the other.  A request that
never returns ends the sequence. -/
def run (B : Build) : List Op → Fs → Fs
  | [], s => s
  | op :: ops, s =>
    match op.step B s with
    | none => s
    | some s1 => run B ops s1

/-- The blocks of file data and directory records: block 0 is the superblock, block 1 the
inode store, and the mask has a bit for the blocks below
`ASSOOFS_MAX_FILESYSTEM_OBJECTS_SUPPORTED`. -/
def is_data_block (b : Nat) : Bool :=
  decide (2 ≤ b) && decide (b < ASSOOFS_MAX_FILESYSTEM_OBJECTS_SUPPORTED)

/-- Whether the stores that a request makes through a `data_block_number` stay inside a
block of file data or directory records.  For a creation: the parent is a directory, its
block is a data block and the new directory record ends inside it.  For a write: the file
is a regular file, its block is a data block and the bytes end inside it.  The other
requests make no such store. -/
def Op.in_data_blocks (H : Header) (s : Fs) : Op → Bool
  | Op.create _ dir _ _ =>
    S_ISDIR (s.inode_store dir).mode && is_data_block (s.inode_store dir).data_block_number &&
      decide (((s.inode_store dir).dir_children_count + 1) * H.sizeof_dir_record_entry ≤
        H.ASSOOFS_DEFAULT_BLOCK_SIZE)
  | Op.mkdir _ dir _ _ =>
    S_ISDIR (s.inode_store dir).mode && is_data_block (s.inode_store dir).data_block_number &&
      decide (((s.inode_store dir).dir_children_count + 1) * H.sizeof_dir_record_entry ≤
        H.ASSOOFS_DEFAULT_BLOCK_SIZE)
  | Op.write _ filp buf ppos =>
    S_ISREG (s.inode_store filp).mode && is_data_block (s.inode_store filp).data_block_number &&
      decide (ppos + buf.length ≤ H.ASSOOFS_DEFAULT_BLOCK_SIZE)
  | _ => true

/-- Whether every request of a sequence, in the state it is made in, keeps its stores
inside the data blocks (`Op.in_data_blocks`). -/
def admissible (H : Header) (B : Build) : List Op → Fs → Bool
  | [], _ => true
  | op :: ops, s =>
    op.in_data_blocks H s &&
      match op.step B s with
      | none => true
      | some s1 => admissible H B ops s1

/-! ## The stages of `assoofs_create` -/

/-- The inode number `assoofs_create` computes for the new object (line 357). -/
def create_ino (B : Build) (s : Fs) : Nat :=
  toU64 (s.sb.inodes_count + B.ASSOOFS_START_INO - B.ASSOOFS_RESERVED_INODES + 1)

/-- The slot `i_info` points to in `assoofs_create` (line 360). -/
def create_i_info (B : Build) (s : Fs) : Nat :=
  assoofs_get_inode_info s (create_ino B s)

/-- The state `assoofs_create` has reached when it calls the allocator: the stores
through `i_info` of lines 362 to 377 are done. -/
def create_fill (B : Build) (mode : Nat) (s0 : Fs) : Fs :=
  let i_ino := create_ino B s0
  let i_info := create_i_info B s0
  let s1 := s0.set_inode i_info { (s0.inode_store i_info) with inode_no := i_ino }
  let s2 := s1.set_inode i_info { (s1.inode_store i_info) with mode := mode }
  if S_ISDIR mode then s2.set_inode i_info { (s2.inode_store i_info) with file_size := 0 }
  else if S_ISREG mode then s2.set_inode i_info { (s2.inode_store i_info) with file_size := 0 }
  else s2

/-- The state `assoofs_create` has reached when it calls `assoofs_inode_save`: the new
directory record is written and the parent's count is incremented (lines 392 to 407). -/
def create_link (dir : Nat) (name : String) (i_info : Nat) (s6 : Fs) : Fs :=
  let parent_dir_inode := s6.inode_store dir
  let record : assoofs_dir_record_entry :=
    { inode_no := (s6.inode_store i_info).inode_no, filename := name }
  let s7 : Fs :=
    { s6 with
      dir_block := Function.update s6.dir_block parent_dir_inode.data_block_number
        (Function.update (s6.dir_block parent_dir_inode.data_block_number)
          parent_dir_inode.dir_children_count record) }
  s7.set_inode dir
    { (s7.inode_store dir) with
      file_size := ((s7.inode_store dir).dir_children_count + 1) % 2 ^ 64 }

/-! ## The stages of `assoofs_write` -/

/-- The state `assoofs_write` has reached when it first calls `assoofs_inode_save`: the
bytes are copied into the block and `file_size` is set through `i_inode` (lines 687 to
710). -/
def write_fill (filp : Nat) (buf : List Nat) (ppos : Nat) (s : Fs) : Fs :=
  let blk := (s.inode_store filp).data_block_number
  let s1 : Fs :=
    { s with
      data_block :=
        Function.update s.data_block blk (copy_from_user (s.data_block blk) ppos buf) }
  s1.set_inode filp { (s1.inode_store filp) with file_size := (ppos + buf.length) % 2 ^ 64 }

/-! ## Invariants -/

/-- The history of the allocator is consistent with the mask: no block number occurs
twice in it, and for each block `b` in it `free_blocks & (1 << b)` is zero. -/
def handed_out_once (B : Build) (s : Fs) : Prop :=
  s.found_free.Nodup ∧
    ∀ b ∈ s.found_free, s.sb.free_blocks &&& toU64 (shl_one B.wide_shift b) = 0

/-- A filesystem right after formatting: one inode, in slot 0, with inode number 1. -/
def is_fresh (s : Fs) : Prop :=
  s.sb.inodes_count = 1 ∧ (s.inode_store 0).inode_no = 1

/-- The states reached from a fresh filesystem by calls of `assoofs_create` that return
(with any name and mode, any outcome), in a parent whose directory block is a data block
with room for the record (`Op.in_data_blocks`).  The third rule lets a held mutex be
released between two calls; without it the set is smaller, since `assoofs_create` keeps
its mutex. -/
inductive created_from_fresh (H : Header) (B : Build) : Fs → Prop where
  | fresh (s : Fs) : is_fresh s → created_from_fresh H B s
  | create (s t : Fs) (sig : Bool) (dir : Nat) (name : String) (mode : Nat) (r : Int) :
      created_from_fresh H B s →
      (Op.create sig dir name mode).in_data_blocks H s = true →
      assoofs_create B sig dir name mode s = some (r, t) →
      created_from_fresh H B t
  | release (s : Fs) (m : Mutex) : created_from_fresh H B s →
      created_from_fresh H B (mutex_unlock m s)

/-- The live slots are numbered in order: slot `k` carries inode number `k + 1`. -/
def numbered (s : Fs) : Prop :=
  s.sb.inodes_count < 2 ^ 64 ∧
    ∀ k, k < s.sb.inodes_count → (s.inode_store k).inode_no = k + 1

/-- The blocks of the superblock, the inode store and the root directory are not free:
bits 0, 1 and 2 of the mask are 0. -/
def reserved_clear (s : Fs) : Prop :=
  s.sb.free_blocks.testBit 0 = false ∧ s.sb.free_blocks.testBit 1 = false ∧
    s.sb.free_blocks.testBit 2 = false

/-- A fresh filesystem just mounted: no mutex held, nothing handed out yet. -/
def is_fresh_mount (s : Fs) : Prop :=
  is_fresh s ∧ s.sb_lock = false ∧ s.inodes_mgmt_lock = false ∧
    s.directory_children_update_lock = false ∧ s.found_free = []

/-- The states reached from a freshly mounted filesystem by requests that return, of any
kind, whose stores stay inside the data blocks (`Op.in_data_blocks`).  The third rule
lets a held mutex be released between two requests. -/
inductive operated_from_fresh (H : Header) (B : Build) : Fs → Prop where
  | fresh (s : Fs) : is_fresh_mount s → operated_from_fresh H B s
  | step (s t : Fs) (op : Op) : operated_from_fresh H B s →
      op.in_data_blocks H s = true → op.step B s = some t →
      operated_from_fresh H B t
  | release (s : Fs) (m : Mutex) : operated_from_fresh H B s →
      operated_from_fresh H B (mutex_unlock m s)

/-- The bookkeeping that holds in every state reached from a fresh mount: the live slots
are numbered in order, there is at least one, `assoofs_inodes_mgmt_lock` is free, and
there are no more live slots than blocks handed out, plus one; the history of the
allocator is consistent with the mask and lists block numbers below 64. -/
def accounted (B : Build) (s : Fs) : Prop :=
  numbered s ∧ 1 ≤ s.sb.inodes_count ∧ s.inodes_mgmt_lock = false ∧
    s.sb.inodes_count ≤ 1 + s.found_free.length ∧ handed_out_once B s ∧
    ∀ b ∈ s.found_free, b < 64

/-- The allocation a request makes, if any: the mask and the history are as before, or one
block, the one the loop stops at, was handed out. -/
def allocates (B : Build) (s t : Fs) : Prop :=
  (t.sb.free_blocks = s.sb.free_blocks ∧ t.found_free = s.found_free) ∨
  (freeblock_scan B.wide_shift s.sb.free_blocks 62 2 < 64 ∧
    t.sb.free_blocks = s.sb.free_blocks &&&
      toU64 (-(shl_one B.wide_shift (freeblock_scan B.wide_shift s.sb.free_blocks 62 2)) - 1) ∧
    t.found_free = freeblock_scan B.wide_shift s.sb.free_blocks 62 2 :: s.found_free)

/-! ## Sample data -/

/-- A build with reserved offset 1 (`ASSOOFS_START_INO` equal to
`ASSOOFS_RESERVED_INODES`) for a target whose shift instruction uses the low five bits of
the count. -/
def build_x86 : Build :=
  { ASSOOFS_START_INO := 3
    ASSOOFS_RESERVED_INODES := 3
    wide_shift := fun i => if i % 32 = 31 then -(2 ^ 31) else 2 ^ (i % 32) }

/-- A filesystem right after formatting, with a given free-block mask: one inode, the root
directory, in slot 0, with inode number 1, data block 2 and no children; no mutex held. -/
def fresh_fs (free_blocks : Nat) : Fs :=
  { sb := { version := 1, magic := 0, block_size := 4096, inodes_count := 1,
            free_blocks := free_blocks }
    inode_store := fun k =>
      if k = 0 then { mode := S_IFDIR, inode_no := 1, data_block_number := 2, file_size := 0 }
      else { mode := 0, inode_no := 0, data_block_number := 0, file_size := 0 }
    dir_block := fun _ _ => { filename := "", inode_no := 0 }
    data_block := fun _ _ => 0
    sb_lock := false
    inodes_mgmt_lock := false
    directory_children_update_lock := false
    found_free := [] }

/-- Two files of one name: "a" is created twice in the root of the fresh filesystem, on
`build_x86`; the mutex that `assoofs_create` keeps is released in between. -/
def twice_created_fs : Fs :=
  run build_x86 [Op.create false 0 "a" S_IFREG]
    (mutex_unlock Mutex.assoofs_directory_children_update_lock
      (run build_x86 [Op.create false 0 "a" S_IFREG] (fresh_fs (2 ^ 64 - 8))))

/-- A constants record for the samples: block size 4096 and directory records of 264
bytes. -/
def header_4096 : Header :=
  { ASSOOFS_MAGIC := 0, ASSOOFS_DEFAULT_BLOCK_SIZE := 4096, sizeof_dir_record_entry := 264 }

/-- The fresh filesystem after the file "a.txt" is created in the root, on `build_x86`:
the file has slot 1, inode number 2 and data block 3. -/
def one_file_fs : Fs :=
  run build_x86 [Op.create false 0 "a.txt" S_IFREG] (fresh_fs (2 ^ 64 - 8))

/-! ## Theorems -/

/-! ### Machine integers -/

theorem toU64_lt (x : Int) : toU64 x < 2 ^ 64 := by
  unfold toU64
  have h : (0 : Int) ≤ x % 2 ^ 64 := Int.emod_nonneg _ (by norm_num)
  have h2 : x % 2 ^ 64 < 2 ^ 64 := Int.emod_lt_of_pos _ (by norm_num)
  omega

theorem toU64_ofNat (n : Nat) (h : n < 2 ^ 64) : toU64 (n : Int) = n := by
  unfold toU64
  norm_num at h ⊢
  omega

theorem toU64_compl (x : Int) : toU64 (-x - 1) = 2 ^ 64 - (toU64 x + 1) := by
  unfold toU64
  norm_num
  omega

theorem and_two_pow_ne_zero (m i : Nat) : m &&& 2 ^ i ≠ 0 ↔ m.testBit i = true := by
  constructor
  · intro h
    by_contra hb
    apply h
    apply Nat.eq_of_testBit_eq
    intro j
    simp only [Nat.testBit_and, Nat.zero_testBit, Nat.testBit_two_pow]
    by_cases hij : i = j
    · subst hij; simp [hb]
    · simp [hij]
  · intro hb h
    have := congrArg (fun x => x.testBit i) h
    simp [Nat.testBit_two_pow, hb] at this

theorem and_compl_eq_zero (a : Nat) (h : a < 2 ^ 64) : a &&& (2 ^ 64 - (a + 1)) = 0 := by
  apply Nat.eq_of_testBit_eq
  intro j
  rw [Nat.testBit_and, Nat.testBit_two_pow_sub_succ h]
  cases a.testBit j <;> simp

theorem toU64_and_compl (x : Int) : toU64 x &&& toU64 (-x - 1) = 0 := by
  rw [toU64_compl]
  exact and_compl_eq_zero _ (toU64_lt x)


/-! ### The allocator loop -/
theorem freeblock_scan_le (wide : Nat → Int) (m : Nat) (n i : Nat) :
    i ≤ freeblock_scan wide m n i ∧ freeblock_scan wide m n i ≤ i + n := by
  induction n generalizing i with
  | zero => simp [freeblock_scan]
  | succ n ih =>
    unfold freeblock_scan
    split
    · omega
    · have := ih (i + 1); omega

theorem freeblock_scan_hit (wide : Nat → Int) (m : Nat) (n i : Nat)
    (h : freeblock_scan wide m n i < i + n) :
    m &&& toU64 (shl_one wide (freeblock_scan wide m n i)) ≠ 0 := by
  induction n generalizing i with
  | zero => simp [freeblock_scan] at h
  | succ n ih =>
    unfold freeblock_scan at h ⊢
    split
    · assumption
    · rename_i hc
      rw [if_neg hc] at h
      exact ih (i + 1) (by omega)

theorem freeblock_scan_before (wide : Nat → Int) (m : Nat) (n i j : Nat)
    (hij : i ≤ j) (hj : j < freeblock_scan wide m n i) :
    m &&& toU64 (shl_one wide j) = 0 := by
  induction n generalizing i with
  | zero => simp [freeblock_scan] at hj; omega
  | succ n ih =>
    unfold freeblock_scan at hj
    split at hj
    · omega
    · rename_i hc
      by_cases e : i = j
      · subst e; simpa using hc
      · exact ih (i + 1) (by omega) hj

theorem freeblock_scan_none (wide : Nat → Int) (m : Nat) (n i : Nat)
    (h : ∀ j, i ≤ j → j < i + n → m &&& toU64 (shl_one wide j) = 0) :
    freeblock_scan wide m n i = i + n := by
  induction n generalizing i with
  | zero => simp [freeblock_scan]
  | succ n ih =>
    unfold freeblock_scan
    rw [if_neg (by simpa using h i (le_refl _) (by omega))]
    rw [ih (i + 1) (fun j h1 h2 => h j (by omega) (by omega))]
    omega

theorem get_a_freeblock_eq (B : Build) (sig : Bool) (block : Nat) (s : Fs)
    (hl : s.sb_lock = false) :
    assoofs_sb_get_a_freeblock B sig block s =
      if 64 ≤ freeblock_scan B.wide_shift s.sb.free_blocks 62 2 then
        some (-1, block, { s with sb_lock := true })
      else
        some (0, freeblock_scan B.wide_shift s.sb.free_blocks 62 2,
          { s with
            sb := { s.sb with
              free_blocks := s.sb.free_blocks &&&
                toU64 (-(shl_one B.wide_shift
                  (freeblock_scan B.wide_shift s.sb.free_blocks 62 2)) - 1) }
            found_free := freeblock_scan B.wide_shift s.sb.free_blocks 62 2 :: s.found_free
            sb_lock := false }) := by
  simp [assoofs_sb_get_a_freeblock, mutex_lock_interruptible, Fs.locked, hl, Fs.set_lock,
    mutex_unlock, ASSOOFS_MAX_FILESYSTEM_OBJECTS_SUPPORTED]

theorem and_eq_zero_of_low_clear (m y : Nat) (hm : ∀ i, i < 64 → m.testBit i = false)
    (hy : y < 2 ^ 64) : m &&& y = 0 := by
  apply Nat.eq_of_testBit_eq
  intro j
  rw [Nat.testBit_and, Nat.zero_testBit]
  by_cases hj : j < 64
  · simp [hm j hj]
  · have : y < 2 ^ j := lt_of_lt_of_le hy (Nat.pow_le_pow_right (by norm_num) (by omega))
    simp [Nat.testBit_lt_two_pow this]

theorem shl_one_low (wide : Nat → Int) (i : Nat) (h : i < 31) :
    toU64 (shl_one wide i) = 2 ^ i := by
  have h2 : (2 : Nat) ^ i < 2 ^ 64 := Nat.pow_lt_pow_right (by norm_num) (by omega)
  have := toU64_ofNat (2 ^ i) h2
  simpa [shl_one, h] using this

theorem shl_one_31 (wide : Nat → Int) : toU64 (shl_one wide 31) = 2 ^ 64 - (2 ^ 31 - 1 + 1) := by
  simp [shl_one, toU64]

theorem testBit_shl_one_31 (wide : Nat → Int) (j : Nat) :
    (toU64 (shl_one wide 31)).testBit j = (decide (j < 64) && decide (31 ≤ j)) := by
  rw [shl_one_31, Nat.testBit_two_pow_sub_succ (by norm_num), Nat.testBit_two_pow_sub_one]
  by_cases h : j < 31 <;> simp [h]
  omega

/-- A set bit at an index from 2 to 63 stops the loop before 64. -/
theorem freeblock_scan_lt_of_bit (wide : Nat → Int) (m i : Nat) (h2 : 2 ≤ i) (h64 : i < 64)
    (hb : m.testBit i = true) : freeblock_scan wide m 62 2 < 64 := by
  by_contra hc
  by_cases hi : i < 31
  · have := freeblock_scan_before wide m 62 2 i h2 (by omega)
    rw [shl_one_low wide i hi] at this
    exact (and_two_pow_ne_zero m i).mpr hb this
  · have := freeblock_scan_before wide m 62 2 31 (by omega) (by omega)
    have h3 := congrArg (fun x => x.testBit i) this
    simp [testBit_shl_one_31, hb, h64] at h3
    omega

/-- With the bits below `i` clear from 2 on and bit `i` set, `i` below 31, the loop stops
at `i`. -/
theorem freeblock_scan_eq_of_first_bit (wide : Nat → Int) (m i : Nat) (h2 : 2 ≤ i)
    (h31 : i < 31) (hb : m.testBit i = true)
    (hlow : ∀ j, 2 ≤ j → j < i → m.testBit j = false) :
    freeblock_scan wide m 62 2 = i := by
  have hle : freeblock_scan wide m 62 2 ≤ i := by
    by_contra hc
    have := freeblock_scan_before wide m 62 2 i h2 (by omega)
    rw [shl_one_low wide i h31] at this
    exact (and_two_pow_ne_zero m i).mpr hb this
  rcases Nat.lt_or_ge (freeblock_scan wide m 62 2) i with hlt | hge
  · have hhit := freeblock_scan_hit wide m 62 2 (by omega)
    rw [shl_one_low wide _ (by omega)] at hhit
    have := (and_two_pow_ne_zero m _).mp hhit
    rw [hlow _ (freeblock_scan_le wide m 62 2).1 hlt] at this
    exact absurd this (by simp)
  · omega

/-! ### Frame facts -/

@[simp] theorem set_lock_sb (s : Fs) (m : Mutex) (b : Bool) : (s.set_lock m b).sb = s.sb := by
  cases m <;> rfl

@[simp] theorem set_lock_inode_store (s : Fs) (m : Mutex) (b : Bool) :
    (s.set_lock m b).inode_store = s.inode_store := by
  cases m <;> rfl

@[simp] theorem set_lock_dir_block (s : Fs) (m : Mutex) (b : Bool) :
    (s.set_lock m b).dir_block = s.dir_block := by
  cases m <;> rfl

@[simp] theorem set_lock_data_block (s : Fs) (m : Mutex) (b : Bool) :
    (s.set_lock m b).data_block = s.data_block := by
  cases m <;> rfl

@[simp] theorem set_lock_found_free (s : Fs) (m : Mutex) (b : Bool) :
    (s.set_lock m b).found_free = s.found_free := by
  cases m <;> rfl

@[simp] theorem set_inode_sb (s : Fs) (k : Nat) (r : assoofs_inode_info) :
    (s.set_inode k r).sb = s.sb := rfl

@[simp] theorem set_inode_inode_store (s : Fs) (k : Nat) (r : assoofs_inode_info) :
    (s.set_inode k r).inode_store = Function.update s.inode_store k r := rfl

@[simp] theorem set_inode_dir_block (s : Fs) (k : Nat) (r : assoofs_inode_info) :
    (s.set_inode k r).dir_block = s.dir_block := rfl

@[simp] theorem set_inode_data_block (s : Fs) (k : Nat) (r : assoofs_inode_info) :
    (s.set_inode k r).data_block = s.data_block := rfl

@[simp] theorem set_inode_found_free (s : Fs) (k : Nat) (r : assoofs_inode_info) :
    (s.set_inode k r).found_free = s.found_free := rfl

@[simp] theorem set_inode_sb_lock (s : Fs) (k : Nat) (r : assoofs_inode_info) :
    (s.set_inode k r).sb_lock = s.sb_lock := rfl

@[simp] theorem set_inode_inodes_mgmt_lock (s : Fs) (k : Nat) (r : assoofs_inode_info) :
    (s.set_inode k r).inodes_mgmt_lock = s.inodes_mgmt_lock := rfl

@[simp] theorem set_inode_directory_lock (s : Fs) (k : Nat) (r : assoofs_inode_info) :
    (s.set_inode k r).directory_children_update_lock = s.directory_children_update_lock := rfl

/-- The two ways `mutex_lock_interruptible` returns. -/
theorem mutex_lock_interruptible_some (sig : Bool) (m : Mutex) (s t : Fs) (r : Int)
    (h : mutex_lock_interruptible sig m s = some (r, t)) :
    (r = 0 ∧ t = s.set_lock m true ∧ s.locked m = false) ∨
    (r = -EINTR ∧ t = s ∧ s.locked m = true ∧ sig = true) := by
  unfold mutex_lock_interruptible at h
  by_cases hl : s.locked m = true
  · rw [if_pos hl] at h
    by_cases hs : sig = true
    · rw [if_pos hs] at h
      simp only [Option.some.injEq, Prod.mk.injEq] at h
      exact Or.inr ⟨h.1.symm, h.2.symm, hl, hs⟩
    · rw [if_neg hs] at h
      exact absurd h (by simp)
  · rw [if_neg hl] at h
    simp only [Option.some.injEq, Prod.mk.injEq] at h
    exact Or.inl ⟨h.1.symm, h.2.symm, by simpa using hl⟩

theorem EINTR_ne_zero : -EINTR ≠ 0 := by decide

/-- What a returning `assoofs_sb_get_a_freeblock` did: nothing to the data (the call
failed), or it handed out the block the loop stopped at. -/
theorem get_a_freeblock_some (B : Build) (sig : Bool) (block : Nat) (s t : Fs) (r : Int)
    (b : Nat) (h : assoofs_sb_get_a_freeblock B sig block s = some (r, b, t)) :
    t.inode_store = s.inode_store ∧ t.dir_block = s.dir_block ∧
    t.data_block = s.data_block ∧ t.sb.inodes_count = s.sb.inodes_count ∧
    ((r = -1 ∧ b = block ∧ t.sb = s.sb ∧ t.found_free = s.found_free) ∨
     (r = 0 ∧ b = freeblock_scan B.wide_shift s.sb.free_blocks 62 2 ∧ b < 64 ∧
      t.sb.free_blocks = s.sb.free_blocks &&& toU64 (-(shl_one B.wide_shift b) - 1) ∧
      t.found_free = b :: s.found_free)) := by
  unfold assoofs_sb_get_a_freeblock at h
  cases hlk : mutex_lock_interruptible sig Mutex.assoofs_sb_lock s with
  | none => rw [hlk] at h; exact absurd h (by simp)
  | some p =>
    obtain ⟨r1, s1⟩ := p
    rw [hlk] at h
    rcases mutex_lock_interruptible_some _ _ _ _ _ hlk with ⟨hr, hs, _⟩ | ⟨hr, hs, _, _⟩
    · subst hr hs
      simp only [ne_eq, not_true_eq_false, if_false, ASSOOFS_MAX_FILESYSTEM_OBJECTS_SUPPORTED,
        set_lock_sb, Nat.reduceSub] at h
      split at h
      · simp only [Option.some.injEq, Prod.mk.injEq] at h
        obtain ⟨h1, h2, h3⟩ := h
        subst h1 h2 h3
        simp
      · rename_i hlt
        simp only [Option.some.injEq, Prod.mk.injEq] at h
        obtain ⟨h1, h2, h3⟩ := h
        subst h1 h2 h3
        simp [mutex_unlock]
        omega
    · subst hr hs
      simp only [ne_eq, EINTR_ne_zero, not_false_eq_true, if_true, Option.some.injEq,
        Prod.mk.injEq] at h
      obtain ⟨h1, h2, h3⟩ := h
      subst h1 h2 h3
      simp


/-- What a returning `assoofs_inode_add_info` did: nothing to the data (a wait was
interrupted), or the append. -/
theorem inode_add_info_some (sig : Bool) (inode : assoofs_inode_info) (s t : Fs)
    (h : assoofs_inode_add_info sig inode s = some t) :
    t.dir_block = s.dir_block ∧ t.data_block = s.data_block ∧
    t.found_free = s.found_free ∧ t.sb.free_blocks = s.sb.free_blocks ∧
    ((t.sb = s.sb ∧ t.inode_store = s.inode_store) ∨
     (t.sb.inodes_count = (s.sb.inodes_count + 1) % 2 ^ 64 ∧
      t.inode_store = Function.update s.inode_store s.sb.inodes_count inode)) := by
  unfold assoofs_inode_add_info at h
  cases hlk : mutex_lock_interruptible sig Mutex.assoofs_inodes_mgmt_lock s with
  | none => rw [hlk] at h; exact absurd h (by simp)
  | some p =>
    obtain ⟨r1, s1⟩ := p
    rw [hlk] at h
    rcases mutex_lock_interruptible_some _ _ _ _ _ hlk with ⟨hr, hs, _⟩ | ⟨hr, hs, _, _⟩
    · subst hr hs
      simp only [ne_eq, not_true_eq_false, if_false] at h
      cases hlk2 : mutex_lock_interruptible sig Mutex.assoofs_sb_lock
          (s.set_lock Mutex.assoofs_inodes_mgmt_lock true) with
      | none => rw [hlk2] at h; exact absurd h (by simp)
      | some p2 =>
        obtain ⟨r2, s2⟩ := p2
        rw [hlk2] at h
        rcases mutex_lock_interruptible_some _ _ _ _ _ hlk2 with ⟨hr, hs, _⟩ | ⟨hr, hs, _, _⟩
        · subst hr hs
          simp only [ne_eq, not_true_eq_false, if_false, Option.some.injEq] at h
          subst h
          simp [mutex_unlock]
        · subst hr hs
          simp only [ne_eq, EINTR_ne_zero, not_false_eq_true, if_true, Option.some.injEq] at h
          subst h
          simp
    · subst hr hs
      simp only [ne_eq, EINTR_ne_zero, not_false_eq_true, if_true, Option.some.injEq] at h
      subst h
      simp

/-- What a returning `assoofs_inode_save` did: nothing to the data (the wait was
interrupted), or the copy into the slot `assoofs_get_inode_info` designates. -/
theorem inode_save_some (sig : Bool) (i_inode : assoofs_inode_info) (s t : Fs) (r : Int)
    (h : assoofs_inode_save sig i_inode s = some (r, t)) :
    t.sb = s.sb ∧ t.dir_block = s.dir_block ∧ t.data_block = s.data_block ∧
    t.found_free = s.found_free ∧
    ((r = -EINTR ∧ t.inode_store = s.inode_store) ∨
     (r = 0 ∧ t.inode_store =
        Function.update s.inode_store (assoofs_get_inode_info s i_inode.inode_no) i_inode)) := by
  unfold assoofs_inode_save at h
  cases hlk : mutex_lock_interruptible sig Mutex.assoofs_sb_lock s with
  | none => rw [hlk] at h; exact absurd h (by simp)
  | some p =>
    obtain ⟨r1, s1⟩ := p
    rw [hlk] at h
    rcases mutex_lock_interruptible_some _ _ _ _ _ hlk with ⟨hr, hs, _⟩ | ⟨hr, hs, _, _⟩
    · subst hr hs
      simp only [ne_eq, not_true_eq_false, if_false, Option.some.injEq, Prod.mk.injEq] at h
      obtain ⟨h1, h2⟩ := h
      subst h1 h2
      simp [mutex_unlock, assoofs_get_inode_info]
    · subst hr hs
      simp only [ne_eq, EINTR_ne_zero, not_false_eq_true, if_true, Option.some.injEq,
        Prod.mk.injEq] at h
      obtain ⟨h1, h2⟩ := h
      subst h1 h2
      simp

/-- `assoofs_create`, written with its stages. -/
theorem assoofs_create_eq (B : Build) (sig : Bool) (dir : Nat) (name : String) (mode : Nat)
    (s : Fs) :
    assoofs_create B sig dir name mode s =
      match mutex_lock_interruptible sig Mutex.assoofs_directory_children_update_lock s with
      | none => none
      | some (r, s0) =>
        if r ≠ 0 then some (-EINTR, s0)
        else
          match assoofs_sb_get_a_freeblock B sig
              ((create_fill B mode s0).inode_store (create_i_info B s0)).data_block_number
              (create_fill B mode s0) with
          | none => none
          | some (i, block, s4) =>
            if i < 0 then
              some (i, s4.set_inode (create_i_info B s0)
                { (s4.inode_store (create_i_info B s0)) with data_block_number := block })
            else
              match assoofs_inode_add_info sig
                  ((s4.set_inode (create_i_info B s0)
                    { (s4.inode_store (create_i_info B s0)) with
                      data_block_number := block }).inode_store (create_i_info B s0))
                  (s4.set_inode (create_i_info B s0)
                    { (s4.inode_store (create_i_info B s0)) with
                      data_block_number := block }) with
              | none => none
              | some s6 =>
                match assoofs_inode_save sig
                    ((create_link dir name (create_i_info B s0) s6).inode_store dir)
                    (create_link dir name (create_i_info B s0) s6) with
                | none => none
                | some (r2, s9) => if r2 ≠ 0 then some (r2, s9) else some (0, s9) := by
  rfl


@[simp] theorem create_ino_set_lock (B : Build) (s : Fs) (m : Mutex) (b : Bool) :
    create_ino B (s.set_lock m b) = create_ino B s := by
  simp [create_ino]

@[simp] theorem get_inode_info_set_lock (s : Fs) (m : Mutex) (b : Bool) (ino : Nat) :
    assoofs_get_inode_info (s.set_lock m b) ino = assoofs_get_inode_info s ino := by
  simp [assoofs_get_inode_info]

@[simp] theorem create_i_info_set_lock (B : Build) (s : Fs) (m : Mutex) (b : Bool) :
    create_i_info B (s.set_lock m b) = create_i_info B s := by
  simp [create_i_info]

/-- The ways `assoofs_create` returns: interrupted on its own mutex; or after a failed
allocation; or after the append and the update of the parent. -/
theorem create_some (B : Build) (sig : Bool) (dir : Nat) (name : String) (mode : Nat)
    (s t : Fs) (r : Int) (h : assoofs_create B sig dir name mode s = some (r, t)) :
    (r = -EINTR ∧ t = s) ∨
    ∃ i block s4,
      assoofs_sb_get_a_freeblock B sig
        ((create_fill B mode
          (s.set_lock Mutex.assoofs_directory_children_update_lock true)).inode_store
            (create_i_info B s)).data_block_number
        (create_fill B mode (s.set_lock Mutex.assoofs_directory_children_update_lock true))
          = some (i, block, s4) ∧
      ((i < 0 ∧ r = i ∧
        t = s4.set_inode (create_i_info B s)
          { (s4.inode_store (create_i_info B s)) with data_block_number := block }) ∨
       (¬ i < 0 ∧ ∃ s6,
          assoofs_inode_add_info sig
            ((s4.set_inode (create_i_info B s)
              { (s4.inode_store (create_i_info B s)) with
                data_block_number := block }).inode_store (create_i_info B s))
            (s4.set_inode (create_i_info B s)
              { (s4.inode_store (create_i_info B s)) with data_block_number := block })
              = some s6 ∧
          assoofs_inode_save sig
            ((create_link dir name (create_i_info B s) s6).inode_store dir)
            (create_link dir name (create_i_info B s) s6) = some (r, t))) := by
  rw [assoofs_create_eq] at h
  cases hlk : mutex_lock_interruptible sig Mutex.assoofs_directory_children_update_lock s with
  | none => rw [hlk] at h; exact absurd h (by simp)
  | some p =>
    obtain ⟨r1, s1⟩ := p
    rw [hlk] at h
    rcases mutex_lock_interruptible_some _ _ _ _ _ hlk with ⟨hr, hs, _⟩ | ⟨hr, hs, _, _⟩
    · subst hr hs
      simp only [ne_eq, not_true_eq_false, if_false, create_i_info_set_lock] at h
      right
      cases hal : assoofs_sb_get_a_freeblock B sig
          ((create_fill B mode
            (s.set_lock Mutex.assoofs_directory_children_update_lock true)).inode_store
              (create_i_info B s)).data_block_number
          (create_fill B mode (s.set_lock Mutex.assoofs_directory_children_update_lock true)) with
      | none => rw [hal] at h; exact absurd h (by simp)
      | some q =>
        obtain ⟨i, block, s4⟩ := q
        rw [hal] at h
        refine ⟨i, block, s4, rfl, ?_⟩
        by_cases hi : i < 0
        · simp only [hi, if_true, Option.some.injEq, Prod.mk.injEq] at h
          exact Or.inl ⟨hi, h.1.symm, h.2.symm⟩
        · simp only [hi, if_false] at h
          right
          refine ⟨hi, ?_⟩
          cases had : assoofs_inode_add_info sig
              ((s4.set_inode (create_i_info B s)
                { (s4.inode_store (create_i_info B s)) with
                  data_block_number := block }).inode_store (create_i_info B s))
              (s4.set_inode (create_i_info B s)
                { (s4.inode_store (create_i_info B s)) with data_block_number := block }) with
          | none => rw [had] at h; exact absurd h (by simp)
          | some s6 =>
            rw [had] at h
            dsimp only at h
            refine ⟨s6, rfl, ?_⟩
            cases hsv : assoofs_inode_save sig
                ((create_link dir name (create_i_info B s) s6).inode_store dir)
                (create_link dir name (create_i_info B s) s6) with
            | none => rw [hsv] at h; exact absurd h (by simp)
            | some q2 =>
              obtain ⟨r2, s9⟩ := q2
              rw [hsv] at h
              dsimp only at h
              by_cases hr2 : r2 = 0
              · simp only [hr2, ne_eq, not_true_eq_false, if_false, Option.some.injEq,
                  Prod.mk.injEq] at h
                rw [hr2, ← h.1, ← h.2]
              · simp only [hr2, ne_eq, not_false_eq_true, if_true, Option.some.injEq,
                  Prod.mk.injEq] at h
                rw [← h.1, ← h.2]
    · subst hr hs
      simp only [ne_eq, EINTR_ne_zero, not_false_eq_true, if_true, Option.some.injEq,
        Prod.mk.injEq] at h
      exact Or.inl ⟨h.1.symm, h.2.symm⟩

/-- Below index 31 the allocator does what is expected of it: with `assoofs_sb_lock`
free, a 64-bit mask, bit `i` set and the bits from 2 to `i - 1` clear, the call returns 0
with block `i`, clears bit `i` of the mask and no other bit, and leaves `inodes_count`
alone. -/
theorem get_a_freeblock_low_index (B : Build) (sig : Bool) (block : Nat) (s : Fs) (i : Nat)
    (hl : s.sb_lock = false) (hw : s.sb.free_blocks < 2 ^ 64) (h2 : 2 ≤ i) (h31 : i < 31)
    (hb : s.sb.free_blocks.testBit i = true)
    (hlow : ∀ j, 2 ≤ j → j < i → s.sb.free_blocks.testBit j = false) :
    ∃ t, assoofs_sb_get_a_freeblock B sig block s = some (0, i, t) ∧
      (∀ j, t.sb.free_blocks.testBit j = (s.sb.free_blocks.testBit j && decide (j ≠ i))) ∧
      t.sb.inodes_count = s.sb.inodes_count := by
  have hscan := freeblock_scan_eq_of_first_bit B.wide_shift s.sb.free_blocks i h2 h31 hb hlow
  rw [get_a_freeblock_eq B sig block s hl, hscan, if_neg (by omega)]
  refine ⟨_, rfl, ?_, rfl⟩
  intro j
  have hp : (2 : Nat) ^ i < 2 ^ 64 := Nat.pow_lt_pow_right (by norm_num) (by omega)
  have hc : toU64 (-(shl_one B.wide_shift i) - 1) = 2 ^ 64 - (2 ^ i + 1) := by
    rw [toU64_compl, shl_one_low B.wide_shift i h31]
  show (s.sb.free_blocks &&& toU64 (-(shl_one B.wide_shift i) - 1)).testBit j = _
  rw [hc, Nat.testBit_and, Nat.testBit_two_pow_sub_succ hp, Nat.testBit_two_pow]
  by_cases hj : j < 64
  · by_cases hij : i = j
    · subst hij; simp
    · have hji : j ≠ i := fun h => hij h.symm
      simp [hj, hij, hji]
  · have hlt : s.sb.free_blocks < 2 ^ j :=
      lt_of_lt_of_le hw (Nat.pow_le_pow_right (by norm_num) (by omega))
    simp [Nat.testBit_lt_two_pow hlt]

/-! ### C1 and C2: `assoofs_sb_get_a_freeblock` -/

/-- C1 (the code departs from the claim at index 31): with bits 31 and 40 of the mask set
the call returns 0 with block 31 and clears bit 40 as well; with bit 32 alone set it
returns 0 with block 31, which was not free, and clears bit 32. -/
theorem get_a_freeblock_high_index (B : Build) (sig : Bool) (block : Nat) :
    (assoofs_sb_get_a_freeblock B sig block (fresh_fs (2 ^ 31 + 2 ^ 40))).map
        (fun r => (r.1, r.2.1, r.2.2.sb.free_blocks)) = some (0, 31, 0) ∧
    (assoofs_sb_get_a_freeblock B sig block (fresh_fs (2 ^ 32))).map
        (fun r => (r.1, r.2.1, r.2.2.sb.free_blocks)) = some (0, 31, 0) := by
  have e1 : freeblock_scan B.wide_shift 1101659111424 62 2 = 31 := by
    simp +decide [freeblock_scan, shl_one, toU64]
  have e2 : freeblock_scan B.wide_shift 4294967296 62 2 = 31 := by
    simp +decide [freeblock_scan, shl_one, toU64]
  constructor
  · rw [get_a_freeblock_eq B sig block _ rfl]
    simp +decide [fresh_fs, e1, shl_one, toU64]
  · rw [get_a_freeblock_eq B sig block _ rfl]
    simp +decide [fresh_fs, e2, shl_one, toU64]

/-- C2: when `assoofs_sb_lock` is free and bits 0 and 1 of the mask (superblock and inode
store) are clear, `assoofs_sb_get_a_freeblock` returns, and it returns a negative value
exactly when no bit of the mask is set at an index the loop scans, from 2 up to
`ASSOOFS_MAX_FILESYSTEM_OBJECTS_SUPPORTED`; with bit 2 (the root directory's block) clear
too, exactly when no bit is set from 3 on.  When the call fails, the mask, `inodes_count`
and `*block` are what they were. -/
theorem get_a_freeblock_fails_iff (B : Build) (sig : Bool) (block : Nat) (s : Fs)
    (hl : s.sb_lock = false) (h0 : s.sb.free_blocks.testBit 0 = false)
    (h1 : s.sb.free_blocks.testBit 1 = false) :
    ∃ r b s1, assoofs_sb_get_a_freeblock B sig block s = some (r, b, s1) ∧
      (r < 0 ↔ ∀ i, 2 ≤ i → i < ASSOOFS_MAX_FILESYSTEM_OBJECTS_SUPPORTED →
        s.sb.free_blocks.testBit i = false) ∧
      (s.sb.free_blocks.testBit 2 = false →
        (r < 0 ↔ ∀ i, 3 ≤ i → i < ASSOOFS_MAX_FILESYSTEM_OBJECTS_SUPPORTED →
          s.sb.free_blocks.testBit i = false)) ∧
      (r < 0 → s1.sb.free_blocks = s.sb.free_blocks ∧
        s1.sb.inodes_count = s.sb.inodes_count ∧ b = block) := by
  have key : ∀ r : Int, (r < 0 ↔ ∀ i, 2 ≤ i → i < ASSOOFS_MAX_FILESYSTEM_OBJECTS_SUPPORTED →
      s.sb.free_blocks.testBit i = false) →
      (s.sb.free_blocks.testBit 2 = false →
        (r < 0 ↔ ∀ i, 3 ≤ i → i < ASSOOFS_MAX_FILESYSTEM_OBJECTS_SUPPORTED →
          s.sb.free_blocks.testBit i = false)) := by
    intro r hr hb2
    rw [hr]
    constructor
    · intro h i h3 h64
      exact h i (by omega) h64
    · intro h i h2 h64
      rcases Nat.lt_or_ge i 3 with hlt | hge
      · have : i = 2 := by omega
        rw [this]; exact hb2
      · exact h i hge h64
  rw [get_a_freeblock_eq B sig block s hl]
  by_cases hs : 64 ≤ freeblock_scan B.wide_shift s.sb.free_blocks 62 2
  · rw [if_pos hs]
    have hiff : ((-1 : Int) < 0 ↔ ∀ i, 2 ≤ i → i < ASSOOFS_MAX_FILESYSTEM_OBJECTS_SUPPORTED →
        s.sb.free_blocks.testBit i = false) := by
      constructor
      · intro _ i hi2 hi64
        by_contra hb
        have := freeblock_scan_lt_of_bit B.wide_shift s.sb.free_blocks i hi2 hi64
          (by simpa using hb)
        omega
      · intro _; norm_num
    exact ⟨_, _, _, rfl, hiff, key _ hiff, fun _ => ⟨rfl, rfl, rfl⟩⟩
  · rw [if_neg hs]
    have hiff : ((0 : Int) < 0 ↔ ∀ i, 2 ≤ i → i < ASSOOFS_MAX_FILESYSTEM_OBJECTS_SUPPORTED →
        s.sb.free_blocks.testBit i = false) := by
      constructor
      · intro h; exact absurd h (by norm_num)
      · intro h
        exfalso
        apply hs
        have hz : ∀ i, i < 64 → s.sb.free_blocks.testBit i = false := by
          intro i hi
          rcases Nat.lt_or_ge i 2 with h2 | h2
          · interval_cases i
            · exact h0
            · exact h1
          · exact h i h2 hi
        rw [freeblock_scan_none B.wide_shift s.sb.free_blocks 62 2
          (fun j _ _ => and_eq_zero_of_low_clear _ _ hz (toU64_lt _))]
    exact ⟨_, _, _, rfl, hiff, key _ hiff, fun h => absurd h (by norm_num)⟩

/-- C2, instance: an exhausted mask on the fresh filesystem. -/
theorem get_a_freeblock_fails_iff_witness :
    ∃ r b s1, assoofs_sb_get_a_freeblock build_x86 false 7 (fresh_fs 0) = some (r, b, s1) ∧
      (r < 0 ↔ ∀ i, 2 ≤ i → i < ASSOOFS_MAX_FILESYSTEM_OBJECTS_SUPPORTED →
        (fresh_fs 0).sb.free_blocks.testBit i = false) ∧
      ((fresh_fs 0).sb.free_blocks.testBit 2 = false →
        (r < 0 ↔ ∀ i, 3 ≤ i → i < ASSOOFS_MAX_FILESYSTEM_OBJECTS_SUPPORTED →
          (fresh_fs 0).sb.free_blocks.testBit i = false)) ∧
      (r < 0 → s1.sb.free_blocks = (fresh_fs 0).sb.free_blocks ∧
        s1.sb.inodes_count = (fresh_fs 0).sb.inodes_count ∧ b = 7) :=
  get_a_freeblock_fails_iff build_x86 false 7 (fresh_fs 0) rfl (by decide) (by decide)

/-! ### C3: no block is handed out twice -/

theorem handed_out_once_congr (B : Build) (s t : Fs) (h1 : t.sb.free_blocks = s.sb.free_blocks)
    (h2 : t.found_free = s.found_free) (h : handed_out_once B s) : handed_out_once B t := by
  unfold handed_out_once at *
  rw [h1, h2]
  exact h

theorem get_a_freeblock_handed_out_once (B : Build) (sig : Bool) (block : Nat) (s t : Fs)
    (r : Int) (b : Nat) (h : assoofs_sb_get_a_freeblock B sig block s = some (r, b, t))
    (hinv : handed_out_once B s) : handed_out_once B t := by
  obtain ⟨_, _, _, _, hc⟩ := get_a_freeblock_some B sig block s t r b h
  rcases hc with ⟨_, _, hsb, hff⟩ | ⟨_, hb, hlt, hmask, hff⟩
  · exact handed_out_once_congr B s t (by rw [hsb]) hff hinv
  · have hhit : s.sb.free_blocks &&& toU64 (shl_one B.wide_shift b) ≠ 0 := by
      rw [hb]
      exact freeblock_scan_hit B.wide_shift s.sb.free_blocks 62 2 (by omega)
    refine ⟨?_, ?_⟩
    · rw [hff, List.nodup_cons]
      refine ⟨fun hmem => hhit (hinv.2 b hmem), hinv.1⟩
    · intro c hc
      rw [hmask]
      rw [hff, List.mem_cons] at hc
      rcases hc with rfl | hc
      · rw [Nat.land_assoc, Nat.land_comm (toU64 _), toU64_and_compl, Nat.and_zero]
      · rw [Nat.land_assoc, Nat.land_comm (toU64 _), ← Nat.land_assoc, hinv.2 c hc,
          Nat.zero_and]

@[simp] theorem create_fill_sb (B : Build) (mode : Nat) (s : Fs) :
    (create_fill B mode s).sb = s.sb := by
  unfold create_fill
  dsimp only
  split
  · rfl
  · split <;> rfl

@[simp] theorem create_fill_found_free (B : Build) (mode : Nat) (s : Fs) :
    (create_fill B mode s).found_free = s.found_free := by
  unfold create_fill
  dsimp only
  split
  · rfl
  · split <;> rfl

@[simp] theorem create_fill_dir_block (B : Build) (mode : Nat) (s : Fs) :
    (create_fill B mode s).dir_block = s.dir_block := by
  unfold create_fill
  dsimp only
  split
  · rfl
  · split <;> rfl

@[simp] theorem create_fill_data_block (B : Build) (mode : Nat) (s : Fs) :
    (create_fill B mode s).data_block = s.data_block := by
  unfold create_fill
  dsimp only
  split
  · rfl
  · split <;> rfl

@[simp] theorem create_link_sb (dir : Nat) (name : String) (k : Nat) (s : Fs) :
    (create_link dir name k s).sb = s.sb := rfl

@[simp] theorem create_link_found_free (dir : Nat) (name : String) (k : Nat) (s : Fs) :
    (create_link dir name k s).found_free = s.found_free := rfl

@[simp] theorem create_link_data_block (dir : Nat) (name : String) (k : Nat) (s : Fs) :
    (create_link dir name k s).data_block = s.data_block := rfl

theorem create_handed_out_once (B : Build) (sig : Bool) (dir : Nat) (name : String)
    (mode : Nat) (s t : Fs) (r : Int) (h : assoofs_create B sig dir name mode s = some (r, t))
    (hinv : handed_out_once B s) : handed_out_once B t := by
  rcases create_some B sig dir name mode s t r h with ⟨_, ht⟩ | ⟨i, block, s4, hal, hc⟩
  · rw [ht]; exact hinv
  · have h4 : handed_out_once B s4 :=
      get_a_freeblock_handed_out_once B sig _ _ s4 i block hal
        (handed_out_once_congr B s _ (by simp) (by simp) hinv)
    rcases hc with ⟨_, _, ht⟩ | ⟨_, s6, had, hsv⟩
    · rw [ht]
      exact handed_out_once_congr B s4 _ (by simp) (by simp) h4
    · obtain ⟨_, _, hff6, hfb6, _⟩ := inode_add_info_some sig _ _ s6 had
      obtain ⟨hsb, _, _, hff, _⟩ := inode_save_some sig _ _ t r hsv
      refine handed_out_once_congr B s4 t ?_ ?_ h4
      · rw [hsb]; simpa using hfb6
      · rw [hff]; simpa using hff6

/-- What a returning `assoofs_write` leaves alone: the superblock, the directory records
and the history of the allocator. -/
theorem write_some (sig : Bool) (filp : Nat) (buf : List Nat) (ppos : Nat) (s t : Fs) (r : Int)
    (p : Nat) (h : assoofs_write sig filp buf ppos s = some (r, p, t)) :
    t.sb = s.sb ∧ t.dir_block = s.dir_block ∧ t.found_free = s.found_free := by
  unfold assoofs_write at h
  dsimp only at h
  split at h
  · exact absurd h (by simp)
  · rename_i r3 s3 hsv1
    obtain ⟨hsb3, hdb3, _, hff3, _⟩ := inode_save_some sig _ _ s3 r3 hsv1
    split at h
    · exact absurd h (by simp)
    · rename_i r4 s4 hlk
      rcases mutex_lock_interruptible_some _ _ _ _ _ hlk with ⟨hr, hs, _⟩ | ⟨hr, hs, _, _⟩
      · subst hr hs
        simp only [ne_eq, not_true_eq_false, if_false] at h
        split at h
        · exact absurd h (by simp)
        · rename_i r6 s6 hsv2
          obtain ⟨hsb6, hdb6, _, hff6, _⟩ := inode_save_some sig _ _ s6 r6 hsv2
          simp only [Option.some.injEq, Prod.mk.injEq] at h
          obtain ⟨_, _, ht⟩ := h
          subst ht
          simp [mutex_unlock, hsb6, hdb6, hff6, hsb3, hdb3, hff3]
      · subst hr hs
        simp only [ne_eq, EINTR_ne_zero, not_false_eq_true, if_true, Option.some.injEq,
          Prod.mk.injEq] at h
        obtain ⟨_, _, ht⟩ := h
        subst ht
        simp [hsb3, hdb3, hff3]

theorem step_handed_out_once (B : Build) (op : Op) (s t : Fs) (h : op.step B s = some t)
    (hinv : handed_out_once B s) : handed_out_once B t := by
  cases op with
  | get_a_freeblock sig block =>
    simp only [Op.step, Option.map_eq_some'] at h
    obtain ⟨⟨r, b, u⟩, hu, rfl⟩ := h
    exact get_a_freeblock_handed_out_once B sig block s u r b hu hinv
  | create sig dir name mode =>
    simp only [Op.step, Option.map_eq_some'] at h
    obtain ⟨⟨r, u⟩, hu, rfl⟩ := h
    exact create_handed_out_once B sig dir name mode s u r hu hinv
  | mkdir sig dir name mode =>
    simp only [Op.step, Option.map_eq_some', assoofs_mkdir] at h
    obtain ⟨⟨r, u⟩, hu, rfl⟩ := h
    exact create_handed_out_once B sig dir name _ s u r hu hinv
  | write sig filp buf ppos =>
    simp only [Op.step, Option.map_eq_some'] at h
    obtain ⟨⟨r, p, u⟩, hu, rfl⟩ := h
    obtain ⟨hsb, _, hff⟩ := write_some sig filp buf ppos s u r p hu
    exact handed_out_once_congr B s u (by rw [hsb]) hff hinv
  | lookup parent name =>
    simp only [Op.step, Option.some.injEq] at h
    rw [← h]; exact hinv
  | read filp len ppos =>
    simp only [Op.step, Option.some.injEq] at h
    rw [← h]; exact hinv
  | iterate filp pos =>
    simp only [Op.step, Option.some.injEq] at h
    rw [← h]; exact hinv

theorem run_handed_out_once (B : Build) (ops : List Op) (s : Fs)
    (hinv : handed_out_once B s) : handed_out_once B (run B ops s) := by
  induction ops generalizing s with
  | nil => exact hinv
  | cons op ops ih =>
    unfold run
    cases hst : op.step B s with
    | none => exact hinv
    | some s1 => exact ih s1 (step_handed_out_once B op s s1 hst hinv)

/-- C3: start from any state, with an empty history of the allocator, and make any
sequence of requests whose stores stay inside the data blocks (creations in directories
and writes to regular files whose recorded data block is one of blocks 2 to 63, no store
past the end of a block).  The history then lists each block number at most once: no two
successful calls of `assoofs_sb_get_a_freeblock` return the same block. -/
theorem no_block_handed_out_twice (H : Header) (B : Build) (ops : List Op) (s : Fs)
    (_hadm : admissible H B ops { s with found_free := [] } = true) :
    (run B ops { s with found_free := [] }).found_free.Nodup :=
  (run_handed_out_once B ops _ ⟨List.nodup_nil, fun _ h => absurd h (List.not_mem_nil _)⟩).1

/-- C3, instance: on the fresh filesystem with blocks 3 to 63 free, an allocation, the
creation of a file, a write to it and another allocation hand out blocks 3, 4 and 5. -/
theorem no_block_handed_out_twice_witness :
    (run build_x86
      [Op.get_a_freeblock false 0, Op.create false 0 "a" S_IFREG,
        Op.write false 1 [104, 111, 108] 0, Op.get_a_freeblock false 0]
      { fresh_fs (2 ^ 64 - 8) with found_free := [] }).found_free.Nodup :=
  no_block_handed_out_twice header_4096 build_x86 _ (fresh_fs (2 ^ 64 - 8)) (by decide)

/-- The history records the successful calls: on the fresh filesystem, two allocations
and a file creation hand out blocks 3, 4 and 5, in this order. -/
theorem run_sample_history :
    (run build_x86
      [Op.get_a_freeblock false 0, Op.get_a_freeblock false 0,
        Op.create false 0 "a" S_IFREG]
      (fresh_fs (2 ^ 64 - 8))).found_free = [5, 4, 3] := by
  decide

/-! ### Calls that find their mutexes free -/

theorem inode_add_info_eq (sig : Bool) (inode : assoofs_inode_info) (s : Fs)
    (h1 : s.inodes_mgmt_lock = false) (h2 : s.sb_lock = false) :
    assoofs_inode_add_info sig inode s =
      some { s with
        sb := { s.sb with inodes_count := (s.sb.inodes_count + 1) % 2 ^ 64 }
        inode_store := Function.update s.inode_store s.sb.inodes_count inode
        sb_lock := false
        inodes_mgmt_lock := false } := by
  simp [assoofs_inode_add_info, mutex_lock_interruptible, Fs.locked, h1, h2, Fs.set_lock,
    mutex_unlock, Fs.set_inode]

theorem inode_save_eq (sig : Bool) (i_inode : assoofs_inode_info) (s : Fs)
    (h : s.sb_lock = false) :
    assoofs_inode_save sig i_inode s =
      some (0, { s with
        inode_store :=
          Function.update s.inode_store (assoofs_get_inode_info s i_inode.inode_no) i_inode
        sb_lock := false }) := by
  simp [assoofs_inode_save, mutex_lock_interruptible, Fs.locked, h, Fs.set_lock,
    mutex_unlock, Fs.set_inode, assoofs_get_inode_info]

theorem S_ISDIR_of_S_ISREG (mode : Nat) (h : S_ISREG mode = true) : S_ISDIR mode = false := by
  unfold S_ISREG at h
  unfold S_ISDIR
  rw [beq_iff_eq] at h
  rw [h]
  decide

@[simp] theorem create_fill_sb_lock (B : Build) (mode : Nat) (s : Fs) :
    (create_fill B mode s).sb_lock = s.sb_lock := by
  unfold create_fill
  dsimp only
  split
  · rfl
  · split <;> rfl

@[simp] theorem create_fill_inodes_mgmt_lock (B : Build) (mode : Nat) (s : Fs) :
    (create_fill B mode s).inodes_mgmt_lock = s.inodes_mgmt_lock := by
  unfold create_fill
  dsimp only
  split
  · rfl
  · split <;> rfl

@[simp] theorem create_fill_directory_lock (B : Build) (mode : Nat) (s : Fs) :
    (create_fill B mode s).directory_children_update_lock =
      s.directory_children_update_lock := by
  unfold create_fill
  dsimp only
  split
  · rfl
  · split <;> rfl

/-- The record `assoofs_create` has built in the slot `i_info` when it calls the
allocator. -/
theorem create_fill_inode_store (B : Build) (mode : Nat) (s : Fs) :
    (create_fill B mode s).inode_store =
      Function.update s.inode_store (create_i_info B s)
        { mode := mode
          inode_no := create_ino B s
          data_block_number := (s.inode_store (create_i_info B s)).data_block_number
          file_size :=
            if S_ISDIR mode || S_ISREG mode then 0
            else (s.inode_store (create_i_info B s)).file_size } := by
  unfold create_fill
  dsimp only
  by_cases hd : S_ISDIR mode = true
  · simp [hd, Function.update_idem]
  · by_cases hr : S_ISREG mode = true
    · simp [hd, hr, Function.update_idem]
    · simp [hd, hr, Function.update_idem]

/-! ### C4: the first file -/

/-- C4: on a fresh filesystem (one inode, the root directory in slot 0 with inode number
1, data block 2 and no children; bit 2 of the mask clear and bit 3 set; no mutex held)
built with reserved offset 1, creating the regular file "a.txt" in the root returns 0,
stores the record with inode number 2, the given mode, size 0 and data block 3 in slot 1,
makes `inodes_count` 2 and the root's `dir_children_count` 1, and a lookup of "a.txt" in
the root then binds inode number 2. -/
theorem create_on_fresh (B : Build) (sig : Bool) (mode : Nat) (s : Fs)
    (hB : B.ASSOOFS_START_INO = B.ASSOOFS_RESERVED_INODES)
    (hreg : S_ISREG mode = true)
    (hcount : s.sb.inodes_count = 1)
    (hino : (s.inode_store 0).inode_no = 1)
    (hblk : (s.inode_store 0).data_block_number = 2)
    (hchildren : (s.inode_store 0).dir_children_count = 0)
    (hb2 : s.sb.free_blocks.testBit 2 = false)
    (hb3 : s.sb.free_blocks.testBit 3 = true)
    (hl1 : s.sb_lock = false) (hl2 : s.inodes_mgmt_lock = false)
    (hl3 : s.directory_children_update_lock = false) :
    ∃ t, assoofs_create B sig (assoofs_get_inode_info s 1) "a.txt" mode s = some (0, t) ∧
      t.inode_store 1 =
        { mode := mode, inode_no := 2, data_block_number := 3, file_size := 0 } ∧
      t.sb.inodes_count = 2 ∧
      (t.inode_store (assoofs_get_inode_info s 1)).dir_children_count = 1 ∧
      (assoofs_lookup (assoofs_get_inode_info s 1) "a.txt" t).map (fun i => i.i_ino) =
        some 2 := by
  have hroot : assoofs_get_inode_info s 1 = 0 := by
    simp [assoofs_get_inode_info, hcount, inode_scan, hino]
  have hnew : create_ino B s = 2 := by
    simp [create_ino, hcount, hB, toU64]
  have hii : create_i_info B s = 1 := by
    simp [create_i_info, hnew, assoofs_get_inode_info, hcount, inode_scan, hino]
  have hdir : S_ISDIR mode = false := S_ISDIR_of_S_ISREG mode hreg
  have hscan : freeblock_scan B.wide_shift s.sb.free_blocks 62 2 = 3 := by
    apply freeblock_scan_eq_of_first_bit _ _ 3 (by norm_num) (by norm_num) hb3
    intro j h2 h3
    have : j = 2 := by omega
    rw [this]; exact hb2
  rw [hroot, assoofs_create_eq]
  simp only [mutex_lock_interruptible, Fs.locked, hl3, Bool.false_eq_true, if_false, ne_eq,
    not_true_eq_false, create_i_info_set_lock, hii]
  rw [get_a_freeblock_eq B sig _ _ (by simp [create_fill, hdir, hreg, Fs.set_lock, hl1])]
  simp only [create_fill_sb, set_lock_sb, hscan]
  norm_num
  rw [inode_add_info_eq sig _ _ (by simp [Fs.set_lock, hl2]) (by simp)]
  simp only []
  rw [inode_save_eq sig _ _ (by simp [create_link])]
  simp only [if_true, Option.some.injEq, Prod.mk.injEq, true_and, exists_eq_left']
  have hch : (s.inode_store 0).file_size = 0 := hchildren
  simp [create_link, Fs.set_inode, create_fill_inode_store, hii, hnew, hcount, hino, hblk, hch,
    assoofs_lookup, lookup_scan, assoofs_get_inode, assoofs_get_inode_info, inode_scan,
    Function.update, hreg, hdir, assoofs_inode_info.dir_children_count]

/-- C4, instance: the fresh filesystem with blocks 3 to 63 free, on `build_x86`. -/
theorem create_on_fresh_witness :
    ∃ t, assoofs_create build_x86 false (assoofs_get_inode_info (fresh_fs (2 ^ 64 - 8)) 1)
        "a.txt" (S_IFREG ||| 0o644) (fresh_fs (2 ^ 64 - 8)) = some (0, t) ∧
      t.inode_store 1 =
        { mode := S_IFREG ||| 0o644, inode_no := 2, data_block_number := 3, file_size := 0 } ∧
      t.sb.inodes_count = 2 ∧
      (t.inode_store (assoofs_get_inode_info (fresh_fs (2 ^ 64 - 8)) 1)).dir_children_count
        = 1 ∧
      (assoofs_lookup (assoofs_get_inode_info (fresh_fs (2 ^ 64 - 8)) 1) "a.txt" t).map
        (fun i => i.i_ino) = some 2 :=
  create_on_fresh build_x86 false (S_IFREG ||| 0o644) (fresh_fs (2 ^ 64 - 8)) rfl (by decide)
    rfl rfl rfl rfl (by decide) (by decide) rfl rfl rfl

/-! ### The loop of `assoofs_get_inode_info` -/

theorem inode_scan_le (store : Nat → assoofs_inode_info) (ino n i : Nat) :
    i ≤ inode_scan store ino n i ∧ inode_scan store ino n i ≤ i + n := by
  induction n generalizing i with
  | zero => simp [inode_scan]
  | succ n ih =>
    unfold inode_scan
    split
    · omega
    · have := ih (i + 1); omega

theorem inode_scan_hit (store : Nat → assoofs_inode_info) (ino n i : Nat)
    (h : inode_scan store ino n i < i + n) :
    (store (inode_scan store ino n i)).inode_no = ino := by
  induction n generalizing i with
  | zero => simp [inode_scan] at h
  | succ n ih =>
    unfold inode_scan at h ⊢
    split
    · assumption
    · rename_i hc
      rw [if_neg hc] at h
      exact ih (i + 1) (by omega)

theorem inode_scan_before (store : Nat → assoofs_inode_info) (ino n i j : Nat)
    (hij : i ≤ j) (hj : j < inode_scan store ino n i) : (store j).inode_no ≠ ino := by
  induction n generalizing i with
  | zero => simp [inode_scan] at hj; omega
  | succ n ih =>
    unfold inode_scan at hj
    split at hj
    · omega
    · rename_i hc
      by_cases e : i = j
      · subst e; exact hc
      · exact ih (i + 1) (by omega) hj

theorem inode_scan_none (store : Nat → assoofs_inode_info) (ino n i : Nat)
    (h : ∀ j, i ≤ j → j < i + n → (store j).inode_no ≠ ino) :
    inode_scan store ino n i = i + n := by
  induction n generalizing i with
  | zero => simp [inode_scan]
  | succ n ih =>
    unfold inode_scan
    rw [if_neg (h i (le_refl _) (by omega))]
    rw [ih (i + 1) (fun j h1 h2 => h j (by omega) (by omega))]
    omega

/-- The scan depends on the live slots only. -/
theorem inode_scan_congr (store1 store2 : Nat → assoofs_inode_info) (ino n i : Nat)
    (h : ∀ j, i ≤ j → j < i + n → (store1 j).inode_no = (store2 j).inode_no) :
    inode_scan store1 ino n i = inode_scan store2 ino n i := by
  induction n generalizing i with
  | zero => simp [inode_scan]
  | succ n ih =>
    unfold inode_scan
    rw [h i (le_refl _) (by omega), ih (i + 1) (fun j h1 h2 => h j (by omega) (by omega))]

/-- `assoofs_get_inode_info` on a number no live slot carries: the pointer is one record
past the last live slot. -/
theorem get_inode_info_not_found (s : Fs) (ino : Nat)
    (h : ∀ k, k < s.sb.inodes_count → (s.inode_store k).inode_no ≠ ino) :
    assoofs_get_inode_info s ino = s.sb.inodes_count := by
  unfold assoofs_get_inode_info
  rw [inode_scan_none _ _ _ _ (fun j _ hj => h j (by omega))]
  omega

/-! ### C5: creation without a free block -/

/-- C5: take a state whose mask has no bit set (bits 0 and 1 clear, and no bit at an index
from 2 up to `ASSOOFS_MAX_FILESYSTEM_OBJECTS_SUPPORTED`), with the two mutexes the call
takes free, the parent a live slot, and no live slot carrying the number the new inode
would get.  Then `assoofs_create`, for any name and mode, returns a negative value, and
the superblock (`inodes_count` and the mask), the live inode records, the parent's
`dir_children_count` and the directory blocks are what they were. -/
theorem create_without_free_block (B : Build) (sig : Bool) (dir : Nat) (name : String)
    (mode : Nat) (s : Fs)
    (hl1 : s.sb_lock = false) (hl3 : s.directory_children_update_lock = false)
    (h0 : s.sb.free_blocks.testBit 0 = false) (h1 : s.sb.free_blocks.testBit 1 = false)
    (hfull : ∀ i, 2 ≤ i → i < ASSOOFS_MAX_FILESYSTEM_OBJECTS_SUPPORTED →
      s.sb.free_blocks.testBit i = false)
    (hdir : dir < s.sb.inodes_count)
    (hnew : ∀ k, k < s.sb.inodes_count → (s.inode_store k).inode_no ≠ create_ino B s) :
    ∃ r t, assoofs_create B sig dir name mode s = some (r, t) ∧ r < 0 ∧
      t.sb.inodes_count = s.sb.inodes_count ∧
      t.sb.free_blocks = s.sb.free_blocks ∧
      (∀ k, k < s.sb.inodes_count → t.inode_store k = s.inode_store k) ∧
      (t.inode_store dir).dir_children_count = (s.inode_store dir).dir_children_count ∧
      t.dir_block = s.dir_block := by
  have hz : ∀ i, i < 64 → s.sb.free_blocks.testBit i = false := by
    intro i hi
    rcases Nat.lt_or_ge i 2 with h2 | h2
    · interval_cases i
      · exact h0
      · exact h1
    · exact hfull i h2 hi
  have hscan : freeblock_scan B.wide_shift s.sb.free_blocks 62 2 = 64 := by
    rw [freeblock_scan_none B.wide_shift s.sb.free_blocks 62 2
      (fun j _ _ => and_eq_zero_of_low_clear _ _ hz (toU64_lt _))]
  have hii : create_i_info B s = s.sb.inodes_count := get_inode_info_not_found s _ hnew
  rw [assoofs_create_eq]
  simp only [mutex_lock_interruptible, Fs.locked, hl3, Bool.false_eq_true, if_false, ne_eq,
    not_true_eq_false, create_i_info_set_lock]
  rw [get_a_freeblock_eq B sig _ _ (by simp [Fs.set_lock, hl1])]
  simp only [create_fill_sb, set_lock_sb, hscan, le_refl, if_true]
  refine ⟨_, _, rfl, by norm_num, ?_, ?_, ?_, ?_, ?_⟩
  · simp
  · simp
  · intro k hk
    have : k ≠ s.sb.inodes_count := by omega
    simp [create_fill_inode_store, hii, this]
  · have : dir ≠ s.sb.inodes_count := by omega
    simp [create_fill_inode_store, hii, this]
  · simp

/-- C5, instance: the fresh filesystem with an empty mask, on `build_x86`. -/
theorem create_without_free_block_witness :
    ∃ r t, assoofs_create build_x86 false 0 "a.txt" S_IFREG (fresh_fs 0) = some (r, t) ∧
      r < 0 ∧
      t.sb.inodes_count = (fresh_fs 0).sb.inodes_count ∧
      t.sb.free_blocks = (fresh_fs 0).sb.free_blocks ∧
      (∀ k, k < (fresh_fs 0).sb.inodes_count → t.inode_store k = (fresh_fs 0).inode_store k) ∧
      (t.inode_store 0).dir_children_count = ((fresh_fs 0).inode_store 0).dir_children_count ∧
      t.dir_block = (fresh_fs 0).dir_block :=
  create_without_free_block build_x86 false 0 "a.txt" S_IFREG (fresh_fs 0) rfl rfl
    (by decide) (by decide) (fun i _ _ => by simp [fresh_fs]) (by decide)
    (fun k hk => by
      have hk0 : k = 0 := by simpa [fresh_fs] using hk
      subst hk0
      decide)

/-! ### C7: every live inode number is found -/

/-- `assoofs_inode_save` leaves `inodes_count` and the inode numbers of the live slots
alone: the slot it overwrites is past them, or carries the number of the record already. -/
theorem inode_save_live_numbers (sig : Bool) (i_inode : assoofs_inode_info) (s t : Fs)
    (r : Int) (h : assoofs_inode_save sig i_inode s = some (r, t)) :
    t.sb = s.sb ∧
      ∀ k, k < s.sb.inodes_count → (t.inode_store k).inode_no = (s.inode_store k).inode_no := by
  obtain ⟨hsb, _, _, _, hc⟩ := inode_save_some sig i_inode s t r h
  refine ⟨hsb, ?_⟩
  intro k hk
  rcases hc with ⟨_, hst⟩ | ⟨_, hst⟩
  · rw [hst]
  · rw [hst]
    by_cases hkj : k = assoofs_get_inode_info s i_inode.inode_no
    · have hlt : assoofs_get_inode_info s i_inode.inode_no < 0 + s.sb.inodes_count := by omega
      have := inode_scan_hit s.inode_store i_inode.inode_no s.sb.inodes_count 0 hlt
      rw [hkj, Function.update_same]
      exact this.symm
    · rw [Function.update_noteq hkj]

theorem create_ino_numbered (B : Build) (s : Fs)
    (hB : B.ASSOOFS_START_INO = B.ASSOOFS_RESERVED_INODES) :
    create_ino B s = (s.sb.inodes_count + 1) % 2 ^ 64 := by
  unfold create_ino toU64
  rw [hB]
  have : ((s.sb.inodes_count : Int) + B.ASSOOFS_RESERVED_INODES -
      B.ASSOOFS_RESERVED_INODES + 1) = ((s.sb.inodes_count + 1 : Nat) : Int) := by
    push_cast; ring
  rw [this]
  norm_num
  omega

theorem create_i_info_numbered (B : Build) (s : Fs)
    (hB : B.ASSOOFS_START_INO = B.ASSOOFS_RESERVED_INODES) (hn : numbered s) :
    create_i_info B s = s.sb.inodes_count := by
  apply get_inode_info_not_found
  intro k hk
  rw [hn.2 k hk, create_ino_numbered B s hB]
  have := hn.1
  norm_num at this ⊢
  omega

/-- `assoofs_create` keeps the live slots numbered in order, on a build with reserved
offset 1. -/
theorem create_numbered (B : Build) (sig : Bool) (dir : Nat) (name : String) (mode : Nat)
    (s t : Fs) (r : Int) (hB : B.ASSOOFS_START_INO = B.ASSOOFS_RESERVED_INODES)
    (h : assoofs_create B sig dir name mode s = some (r, t)) (hn : numbered s) :
    numbered t := by
  have hii := create_i_info_numbered B s hB hn
  rcases create_some B sig dir name mode s t r h with ⟨_, ht⟩ | ⟨i, block, s4, hal, hc⟩
  · rw [ht]; exact hn
  · obtain ⟨hst4, _, _, hc4, _⟩ := get_a_freeblock_some B sig _ _ s4 i block hal
    simp only [create_fill_sb, set_lock_sb] at hc4
    rw [create_fill_inode_store] at hst4
    simp only [set_lock_inode_store, create_i_info_set_lock, create_ino_set_lock, hii] at hst4
    rw [hii] at hc
    rcases hc with ⟨_, _, ht⟩ | ⟨_, s6, had, hsv⟩
    · rw [ht]
      refine ⟨by simpa [hc4] using hn.1, ?_⟩
      intro k hk
      simp only [set_inode_sb, hc4] at hk
      have hne : k ≠ s.sb.inodes_count := by omega
      simp [hst4, hne, hn.2 k hk]
    · obtain ⟨hsbt, hlive⟩ := inode_save_live_numbers sig _ _ t r hsv
      simp only [create_link_sb] at hsbt hlive
      obtain ⟨_, _, _, _, hc6⟩ := inode_add_info_some sig _ _ s6 had
      have hlink : ∀ k, ((create_link dir name s.sb.inodes_count s6).inode_store k).inode_no =
          (s6.inode_store k).inode_no := by
        intro k
        unfold create_link
        by_cases hk : k = dir
        · subst hk; simp
        · simp [hk]
      have h6 : numbered s6 := by
        rcases hc6 with ⟨hsb6, hst6⟩ | ⟨hcnt6, hst6⟩
        · simp only [set_inode_sb, set_inode_inode_store] at hsb6 hst6
          refine ⟨by rw [hsb6, hc4]; exact hn.1, ?_⟩
          intro k hk
          rw [hsb6, hc4] at hk
          have hne : k ≠ s.sb.inodes_count := by omega
          simp [hst6, hst4, hne, hn.2 k hk]
        · simp only [set_inode_sb, set_inode_inode_store, hc4, Function.update_same,
            Function.update_idem] at hcnt6 hst6
          refine ⟨by rw [hcnt6]; exact Nat.mod_lt _ (by norm_num), ?_⟩
          intro k hk
          rw [hcnt6] at hk
          have hlt := hn.1
          have hle : s.sb.inodes_count + 1 < 2 ^ 64 := by
            by_contra hcon
            have : s.sb.inodes_count + 1 = 2 ^ 64 := by omega
            rw [this, Nat.mod_self] at hk
            omega
          rw [Nat.mod_eq_of_lt hle] at hk
          rw [hst6]
          by_cases hkc : k = s.sb.inodes_count
          · subst hkc
            have hle2 : s.sb.inodes_count + 1 < 18446744073709551616 := by
              norm_num at hle; exact hle
            simp [hst4, create_ino_numbered B s hB, Nat.mod_eq_of_lt hle, hle2]
          · have hk2 : k < s.sb.inodes_count := by omega
            simp [hkc, hst4, hn.2 k hk2]
      refine ⟨by rw [hsbt]; exact h6.1, ?_⟩
      intro k hk
      rw [hsbt] at hk
      rw [hlive k hk, hlink k, h6.2 k hk]

theorem mutex_unlock_numbered (m : Mutex) (s : Fs) (hn : numbered s) :
    numbered (mutex_unlock m s) := by
  unfold numbered mutex_unlock
  simpa using hn

theorem created_from_fresh_numbered (H : Header) (B : Build) (s : Fs)
    (hB : B.ASSOOFS_START_INO = B.ASSOOFS_RESERVED_INODES) (h : created_from_fresh H B s) :
    numbered s := by
  induction h with
  | fresh s hf =>
    refine ⟨by rw [hf.1]; norm_num, ?_⟩
    intro k hk
    rw [hf.1] at hk
    have : k = 0 := by omega
    rw [this, hf.2]
  | create s t sig dir name mode r _ _ hc ih =>
    exact create_numbered B sig dir name mode s t r hB hc ih
  | release s m _ ih => exact mutex_unlock_numbered m s ih

/-- C7: on a build with reserved offset 1, in every state reached from a fresh filesystem
by calls of `assoofs_create` (in parents whose directory block is a data block with room
for the new record), for every inode number `n` from 1 up to `inodes_count`
(excluded), `assoofs_get_inode_info` returns a pointer to one of the first `inodes_count`
slots, and the record there has `inode_no` equal to `n`. -/
theorem get_inode_info_finds_live (H : Header) (B : Build) (s : Fs) (n : Nat)
    (hB : B.ASSOOFS_START_INO = B.ASSOOFS_RESERVED_INODES) (h : created_from_fresh H B s)
    (h1 : 1 ≤ n) (hn : n < s.sb.inodes_count) :
    assoofs_get_inode_info s n < s.sb.inodes_count ∧
      (s.inode_store (assoofs_get_inode_info s n)).inode_no = n := by
  have hnum := created_from_fresh_numbered H B s hB h
  have hslot : (s.inode_store (n - 1)).inode_no = n := by
    rw [hnum.2 (n - 1) (by omega)]; omega
  have hle : assoofs_get_inode_info s n ≤ n - 1 := by
    by_contra hcon
    exact inode_scan_before s.inode_store n s.sb.inodes_count 0 (n - 1) (by omega)
      (by unfold assoofs_get_inode_info at hcon; omega) hslot
  refine ⟨by omega, ?_⟩
  exact inode_scan_hit s.inode_store n s.sb.inodes_count 0
    (by unfold assoofs_get_inode_info at hle; omega)

theorem created_from_fresh_run_create (H : Header) (B : Build) (s : Fs) (sig : Bool)
    (dir : Nat) (name : String) (mode : Nat) (h : created_from_fresh H B s)
    (hd : (Op.create sig dir name mode).in_data_blocks H s = true) :
    created_from_fresh H B (run B [Op.create sig dir name mode] s) := by
  unfold run
  simp only [Op.step]
  cases hc : assoofs_create B sig dir name mode s with
  | none => simpa using h
  | some p =>
    obtain ⟨r, t⟩ := p
    simp only [Option.map_some', run]
    exact created_from_fresh.create s t sig dir name mode r h hd hc

/-- C7, instance: the state after the first file is created, on `build_x86`; inode number
1 is found. -/
theorem get_inode_info_finds_live_witness :
    assoofs_get_inode_info
        (run build_x86 [Op.create false 0 "a.txt" S_IFREG] (fresh_fs (2 ^ 64 - 8))) 1 <
      (run build_x86 [Op.create false 0 "a.txt" S_IFREG] (fresh_fs (2 ^ 64 - 8))).sb.inodes_count ∧
    ((run build_x86 [Op.create false 0 "a.txt" S_IFREG] (fresh_fs (2 ^ 64 - 8))).inode_store
      (assoofs_get_inode_info
        (run build_x86 [Op.create false 0 "a.txt" S_IFREG] (fresh_fs (2 ^ 64 - 8))) 1)).inode_no
      = 1 :=
  get_inode_info_finds_live header_4096 build_x86 _ 1 rfl
    (created_from_fresh_run_create header_4096 build_x86 _ false 0 "a.txt" S_IFREG
      (created_from_fresh.fresh _ ⟨rfl, rfl⟩) (by decide))
    (le_refl 1) (by decide)

/-! ### C8 and C9: a number that no live slot carries -/

/-- C8 (the code departs from the claim): queried for a number that no live slot carries,
`assoofs_get_inode_info` reports nothing: it returns the pointer to slot `inodes_count`,
the record after the last live one, while `assoofs_search_inode_info` returns `NULL` for
the same query when that record carries another number. -/
theorem get_inode_info_miss_returns_record (s : Fs) (search : assoofs_inode_info)
    (h : ∀ k, k < s.sb.inodes_count → (s.inode_store k).inode_no ≠ search.inode_no)
    (hpast : (s.inode_store s.sb.inodes_count).inode_no ≠ search.inode_no) :
    assoofs_get_inode_info s search.inode_no = s.sb.inodes_count ∧
      assoofs_search_inode_info s 0 search = none := by
  have hscan : inode_scan s.inode_store search.inode_no s.sb.inodes_count 0 =
      s.sb.inodes_count := by
    rw [inode_scan_none _ _ _ _ (fun j _ hj => h j (by omega))]
    omega
  refine ⟨hscan, ?_⟩
  unfold assoofs_search_inode_info
  simp only [hscan, if_neg hpast]

/-- C8, instance: the fresh filesystem queried for inode number 2, the number the next
created inode gets on `build_x86`. -/
theorem get_inode_info_miss_returns_record_witness :
    assoofs_get_inode_info (fresh_fs 0) (create_ino build_x86 (fresh_fs 0)) =
        (fresh_fs 0).sb.inodes_count ∧
      assoofs_search_inode_info (fresh_fs 0) 0 ⟨0, create_ino build_x86 (fresh_fs 0), 0, 0⟩ =
        none :=
  get_inode_info_miss_returns_record (fresh_fs 0) ⟨0, create_ino build_x86 (fresh_fs 0), 0, 0⟩
    (fun k hk => by
      have hk0 : k = 0 := by simpa [fresh_fs] using hk
      subst hk0
      decide)
    (by decide)

/-- C9 (the code departs from the claim): given a record whose number no live slot
carries, `assoofs_inode_save`, with its mutex free, returns 0 and writes the record into
slot `inodes_count`. -/
theorem inode_save_miss_writes (sig : Bool) (i_inode : assoofs_inode_info) (s : Fs)
    (hl : s.sb_lock = false)
    (h : ∀ k, k < s.sb.inodes_count → (s.inode_store k).inode_no ≠ i_inode.inode_no) :
    ∃ t, assoofs_inode_save sig i_inode s = some (0, t) ∧
      t.inode_store s.sb.inodes_count = i_inode ∧
      t.sb.inodes_count = s.sb.inodes_count := by
  rw [inode_save_eq sig i_inode s hl, get_inode_info_not_found s _ h]
  exact ⟨_, rfl, by simp, rfl⟩

/-- C9, instance: the fresh filesystem and a record with inode number 5. -/
theorem inode_save_miss_writes_witness :
    ∃ t, assoofs_inode_save false ⟨S_IFREG, 5, 9, 100⟩ (fresh_fs 0) = some (0, t) ∧
      t.inode_store (fresh_fs 0).sb.inodes_count = ⟨S_IFREG, 5, 9, 100⟩ ∧
      t.sb.inodes_count = (fresh_fs 0).sb.inodes_count :=
  inode_save_miss_writes false ⟨S_IFREG, 5, 9, 100⟩ (fresh_fs 0) rfl
    (fun k hk => by
      have hk0 : k = 0 := by simpa [fresh_fs] using hk
      subst hk0
      decide)

/-! ### C10: `assoofs_lookup` -/

theorem lookup_scan_some (records : Nat → assoofs_dir_record_entry) (name : String)
    (n i j : Nat) (h : lookup_scan records name n i = some j) :
    i ≤ j ∧ j < i + n ∧ (records j).filename = name ∧
      ∀ k, i ≤ k → k < j → (records k).filename ≠ name := by
  induction n generalizing i with
  | zero => simp [lookup_scan] at h
  | succ n ih =>
    unfold lookup_scan at h
    split at h
    · rename_i hc
      simp only [Option.some.injEq] at h
      subst h
      exact ⟨le_refl _, by omega, hc, fun k h1 h2 => by omega⟩
    · rename_i hc
      obtain ⟨h1, h2, h3, h4⟩ := ih (i + 1) h
      refine ⟨by omega, by omega, h3, ?_⟩
      intro k hk1 hk2
      by_cases e : k = i
      · subst e; exact hc
      · exact h4 k (by omega) hk2

theorem lookup_scan_none (records : Nat → assoofs_dir_record_entry) (name : String)
    (n i : Nat) :
    lookup_scan records name n i = none ↔
      ∀ k, i ≤ k → k < i + n → (records k).filename ≠ name := by
  induction n generalizing i with
  | zero =>
    simp only [lookup_scan, true_iff]
    intro k h1 h2
    omega
  | succ n ih =>
    unfold lookup_scan
    split
    · rename_i hc
      constructor
      · intro h; exact absurd h (by simp)
      · intro h; exact absurd hc (h i (le_refl _) (by omega))
    · rename_i hc
      rw [ih (i + 1)]
      constructor
      · intro h k hk1 hk2
        by_cases e : k = i
        · subst e; exact hc
        · exact h k (by omega) (by omega)
      · intro h k hk1 hk2
        exact h k (by omega) (by omega)

theorem lookup_scan_congr (r1 r2 : Nat → assoofs_dir_record_entry) (name : String)
    (n i : Nat) (h : ∀ k, i ≤ k → k < i + n → r1 k = r2 k) :
    lookup_scan r1 name n i = lookup_scan r2 name n i := by
  induction n generalizing i with
  | zero => simp [lookup_scan]
  | succ n ih =>
    unfold lookup_scan
    rw [h i (le_refl _) (by omega), ih (i + 1) (fun k h1 h2 => h k (by omega) (by omega))]

/-- The first match decides. -/
theorem lookup_scan_first (records : Nat → assoofs_dir_record_entry) (name : String)
    (n i : Nat) (hi : i < n) (hname : (records i).filename = name)
    (hbefore : ∀ j, j < i → (records j).filename ≠ name) :
    lookup_scan records name n 0 = some i := by
  cases hsc : lookup_scan records name n 0 with
  | none =>
    exact absurd hname ((lookup_scan_none records name n 0).mp hsc i (Nat.zero_le _) (by omega))
  | some j =>
    obtain ⟨_, _, hj, hmin⟩ := lookup_scan_some records name n 0 j hsc
    rcases Nat.lt_trichotomy i j with hlt | heq | hgt
    · exact absurd hname (hmin i (Nat.zero_le _) hlt)
    · rw [heq]
    · exact absurd hj (hbefore j hgt)

/-- C10: `assoofs_lookup` binds the dentry to the inode number of the first of the
parent's `dir_children_count` directory records whose name is the name looked up; it binds
nothing exactly when none of these records has the name; and the records from index
`dir_children_count` on have no part in the result. -/
theorem lookup_first_match (parent_inode : Nat) (name : String) (s : Fs) :
    (∀ i, i < (s.inode_store parent_inode).dir_children_count →
      (s.dir_block (s.inode_store parent_inode).data_block_number i).filename = name →
      (∀ j, j < i →
        (s.dir_block (s.inode_store parent_inode).data_block_number j).filename ≠ name) →
      (assoofs_lookup parent_inode name s).map (fun inode => inode.i_ino) =
        some (s.dir_block (s.inode_store parent_inode).data_block_number i).inode_no) ∧
    (assoofs_lookup parent_inode name s = none ↔
      ∀ i, i < (s.inode_store parent_inode).dir_children_count →
        (s.dir_block (s.inode_store parent_inode).data_block_number i).filename ≠ name) ∧
    (∀ records : Nat → assoofs_dir_record_entry,
      (∀ i, i < (s.inode_store parent_inode).dir_children_count →
        records i = s.dir_block (s.inode_store parent_inode).data_block_number i) →
      assoofs_lookup parent_inode name
        { s with
          dir_block := Function.update s.dir_block
            (s.inode_store parent_inode).data_block_number records } =
        assoofs_lookup parent_inode name s) := by
  refine ⟨?_, ?_, ?_⟩
  · intro i hi hname hbefore
    unfold assoofs_lookup
    simp only [lookup_scan_first _ name _ i hi hname hbefore, Option.map_some', assoofs_get_inode]
  · unfold assoofs_lookup
    constructor
    · intro h i hi
      cases hsc : lookup_scan (s.dir_block (s.inode_store parent_inode).data_block_number) name
          (s.inode_store parent_inode).dir_children_count 0 with
      | none => exact (lookup_scan_none _ name _ 0).mp hsc i (Nat.zero_le _) (by omega)
      | some j => simp [hsc] at h
    · intro h
      have := (lookup_scan_none (s.dir_block (s.inode_store parent_inode).data_block_number)
        name (s.inode_store parent_inode).dir_children_count 0).mpr
        (fun k _ hk => h k (by omega))
      simp [this]
  · intro records hrec
    unfold assoofs_lookup
    simp only [Function.update_same]
    rw [lookup_scan_congr records (s.dir_block (s.inode_store parent_inode).data_block_number)
      name _ 0 (fun k _ hk => hrec k (by omega))]
    cases hsc : lookup_scan (s.dir_block (s.inode_store parent_inode).data_block_number) name
        (s.inode_store parent_inode).dir_children_count 0 with
    | none => rfl
    | some j =>
      obtain ⟨_, hj, _, _⟩ := lookup_scan_some _ name _ 0 j hsc
      simp only [hrec j (by omega), assoofs_get_inode, assoofs_get_inode_info]

/-- C10, instance: after two creations of "a" in the root, the lookup of "a" binds the
inode number of the first record, which is 2, the inode created first. -/
theorem lookup_first_match_witness :
    (assoofs_lookup 0 "a" twice_created_fs).map (fun inode => inode.i_ino) =
        some (twice_created_fs.dir_block
          (twice_created_fs.inode_store 0).data_block_number 0).inode_no ∧
      (twice_created_fs.dir_block
        (twice_created_fs.inode_store 0).data_block_number 0).inode_no = 2 ∧
      (twice_created_fs.dir_block
        (twice_created_fs.inode_store 0).data_block_number 1) = ⟨"a", 3⟩ :=
  ⟨(lookup_first_match 0 "a" twice_created_fs).1 0 (by decide) (by decide)
    (fun j hj => absurd hj (Nat.not_lt_zero j)), by decide, by decide⟩

/-! ### `assoofs_write` with its mutexes free -/

/-- `assoofs_get_inode_info` reads the inode numbers of the live slots and
`inodes_count`, nothing else. -/
theorem get_inode_info_congr (s t : Fs) (ino : Nat)
    (hc : t.sb.inodes_count = s.sb.inodes_count)
    (h : ∀ k, k < s.sb.inodes_count → (t.inode_store k).inode_no = (s.inode_store k).inode_no) :
    assoofs_get_inode_info t ino = assoofs_get_inode_info s ino := by
  unfold assoofs_get_inode_info
  rw [hc]
  exact inode_scan_congr _ _ _ _ _ (fun j _ hj => h j (by omega))

/-- `assoofs_write`, written with its stages. -/
theorem assoofs_write_eq (sig : Bool) (filp : Nat) (buf : List Nat) (ppos : Nat) (s : Fs) :
    assoofs_write sig filp buf ppos s =
      match assoofs_inode_save sig ((write_fill filp buf ppos s).inode_store filp)
          (write_fill filp buf ppos s) with
      | none => none
      | some (_, s3) =>
        match mutex_lock_interruptible sig Mutex.assoofs_inodes_mgmt_lock s3 with
        | none => none
        | some (r, s4) =>
          if r ≠ 0 then some (-EINTR, ppos + buf.length, s4)
          else
            match assoofs_inode_save sig
                ((s4.set_inode filp
                  { (s4.inode_store filp) with
                    file_size := (ppos + buf.length) % 2 ^ 64 }).inode_store filp)
                (s4.set_inode filp
                  { (s4.inode_store filp) with file_size := (ppos + buf.length) % 2 ^ 64 }) with
            | none => none
            | some (ret_value, s6) =>
              some (if ret_value ≠ 0 then ret_value else (buf.length : Int), ppos + buf.length,
                mutex_unlock Mutex.assoofs_inodes_mgmt_lock s6) := by
  rfl

/-- `assoofs_inode_save` on the record of a slot, with `assoofs_sb_lock` free: it returns
0, that slot keeps its record, and when the slot is the one the record's number resolves
to, nothing in the inode store changes. -/
theorem inode_save_self (sig : Bool) (u : Fs) (f : Nat) (hl : u.sb_lock = false) :
    ∃ v, assoofs_inode_save sig (u.inode_store f) u = some (0, v) ∧
      v.inode_store f = u.inode_store f ∧ v.sb = u.sb ∧ v.dir_block = u.dir_block ∧
      v.data_block = u.data_block ∧ v.found_free = u.found_free ∧ v.sb_lock = false ∧
      v.inodes_mgmt_lock = u.inodes_mgmt_lock ∧
      v.directory_children_update_lock = u.directory_children_update_lock ∧
      (assoofs_get_inode_info u (u.inode_store f).inode_no = f →
        v.inode_store = u.inode_store) := by
  rw [inode_save_eq sig _ u hl]
  refine ⟨_, rfl, ?_, rfl, rfl, rfl, rfl, rfl, rfl, rfl, ?_⟩
  · show Function.update u.inode_store _ _ f = _
    by_cases hj : f = assoofs_get_inode_info u (u.inode_store f).inode_no
    · rw [← hj, Function.update_same]
    · rw [Function.update_noteq hj]
  · intro hself
    show Function.update u.inode_store _ _ = _
    rw [hself, Function.update_eq_self]

@[simp] theorem write_fill_sb (filp : Nat) (buf : List Nat) (ppos : Nat) (s : Fs) :
    (write_fill filp buf ppos s).sb = s.sb := rfl

@[simp] theorem write_fill_dir_block (filp : Nat) (buf : List Nat) (ppos : Nat) (s : Fs) :
    (write_fill filp buf ppos s).dir_block = s.dir_block := rfl

@[simp] theorem write_fill_found_free (filp : Nat) (buf : List Nat) (ppos : Nat) (s : Fs) :
    (write_fill filp buf ppos s).found_free = s.found_free := rfl

@[simp] theorem write_fill_sb_lock (filp : Nat) (buf : List Nat) (ppos : Nat) (s : Fs) :
    (write_fill filp buf ppos s).sb_lock = s.sb_lock := rfl

@[simp] theorem write_fill_inodes_mgmt_lock (filp : Nat) (buf : List Nat) (ppos : Nat)
    (s : Fs) : (write_fill filp buf ppos s).inodes_mgmt_lock = s.inodes_mgmt_lock := rfl

@[simp] theorem write_fill_directory_lock (filp : Nat) (buf : List Nat) (ppos : Nat)
    (s : Fs) : (write_fill filp buf ppos s).directory_children_update_lock =
      s.directory_children_update_lock := rfl

theorem write_fill_data_block (filp : Nat) (buf : List Nat) (ppos : Nat) (s : Fs) :
    (write_fill filp buf ppos s).data_block =
      Function.update s.data_block (s.inode_store filp).data_block_number
        (copy_from_user (s.data_block (s.inode_store filp).data_block_number) ppos buf) := rfl

theorem write_fill_inode_store (filp : Nat) (buf : List Nat) (ppos : Nat) (s : Fs) :
    (write_fill filp buf ppos s).inode_store =
      Function.update s.inode_store filp
        { (s.inode_store filp) with file_size := (ppos + buf.length) % 2 ^ 64 } := rfl

/-- What `assoofs_write` does when `assoofs_sb_lock` and `assoofs_inodes_mgmt_lock` are
free: it returns `len`, moves the position by `len`, stores the bytes from offset `ppos`
on in the file's block, and sets `file_size` to the new position in the file's slot; the
superblock and the directory records stay, and the mutexes are as before.  When the
file's slot is the one its inode number resolves to, no other slot changes. -/
theorem write_effect (sig : Bool) (filp : Nat) (buf : List Nat) (ppos : Nat) (s : Fs)
    (hl1 : s.sb_lock = false) (hl2 : s.inodes_mgmt_lock = false) :
    ∃ t, assoofs_write sig filp buf ppos s = some ((buf.length : Int), ppos + buf.length, t) ∧
      t.data_block = Function.update s.data_block (s.inode_store filp).data_block_number
        (copy_from_user (s.data_block (s.inode_store filp).data_block_number) ppos buf) ∧
      t.inode_store filp =
        { (s.inode_store filp) with file_size := (ppos + buf.length) % 2 ^ 64 } ∧
      t.sb = s.sb ∧ t.dir_block = s.dir_block ∧ t.found_free = s.found_free ∧
      t.sb_lock = false ∧ t.inodes_mgmt_lock = false ∧
      t.directory_children_update_lock = s.directory_children_update_lock ∧
      (assoofs_get_inode_info s (s.inode_store filp).inode_no = filp →
        ∀ k, k ≠ filp → t.inode_store k = s.inode_store k) := by
  obtain ⟨s3, h3, hst3, hsb3, hdir3, hdat3, hff3, hl3a, hl3b, hl3c, hself3⟩ :=
    inode_save_self sig (write_fill filp buf ppos s) filp (by simp [hl1])
  have hfill : (write_fill filp buf ppos s).inode_store filp =
      { (s.inode_store filp) with file_size := (ppos + buf.length) % 2 ^ 64 } := by
    rw [write_fill_inode_store, Function.update_same]
  have hrec : { (s3.inode_store filp) with file_size := (ppos + buf.length) % 2 ^ 64 } =
      s3.inode_store filp := by
    rw [hst3, hfill]
  obtain ⟨s6, h6, hst6, hsb6, hdir6, hdat6, hff6, hl6a, hl6b, hl6c, hself6⟩ :=
    inode_save_self sig
      ((s3.set_lock Mutex.assoofs_inodes_mgmt_lock true).set_inode filp
        { ((s3.set_lock Mutex.assoofs_inodes_mgmt_lock true).inode_store filp) with
          file_size := (ppos + buf.length) % 2 ^ 64 }) filp
      (by simp [Fs.set_lock, hl3a])
  rw [assoofs_write_eq, h3]
  dsimp only
  have hlk : mutex_lock_interruptible sig Mutex.assoofs_inodes_mgmt_lock s3 =
      some (0, s3.set_lock Mutex.assoofs_inodes_mgmt_lock true) := by
    simp [mutex_lock_interruptible, Fs.locked, hl3b, hl2]
  rw [hlk]
  dsimp only
  simp only [ne_eq, not_true_eq_false, if_false]
  rw [h6]
  dsimp only
  simp only [ne_eq, not_true_eq_false, if_false]
  have hstore5 : ((s3.set_lock Mutex.assoofs_inodes_mgmt_lock true).set_inode filp
        { ((s3.set_lock Mutex.assoofs_inodes_mgmt_lock true).inode_store filp) with
          file_size := (ppos + buf.length) % 2 ^ 64 }).inode_store = s3.inode_store := by
    simp only [set_inode_inode_store, set_lock_inode_store, hrec, Function.update_eq_self]
  refine ⟨_, rfl, ?_, ?_, ?_, ?_, ?_, ?_, ?_, ?_, ?_⟩
  · simp [mutex_unlock, hdat6, hdat3, write_fill_data_block]
  · rw [mutex_unlock, set_lock_inode_store, hst6, hstore5, hst3, hfill]
  · simp [mutex_unlock, hsb6, hsb3]
  · simp [mutex_unlock, hdir6, hdir3]
  · simp [mutex_unlock, hff6, hff3]
  · simp [mutex_unlock, Fs.set_lock, hl6a]
  · simp [mutex_unlock, Fs.set_lock]
  · simp [mutex_unlock, Fs.set_lock, hl6c, hl3c]
  · intro hself k hk
    have hno : ∀ j, ((write_fill filp buf ppos s).inode_store j).inode_no =
        (s.inode_store j).inode_no := by
      intro j
      rw [write_fill_inode_store]
      by_cases hj : j = filp
      · subst hj; simp
      · simp [hj]
    have hself2 : assoofs_get_inode_info (write_fill filp buf ppos s)
        ((write_fill filp buf ppos s).inode_store filp).inode_no = filp := by
      rw [hno filp, get_inode_info_congr s (write_fill filp buf ppos s) _ rfl
        (fun j _ => hno j), hself]
    have e3 := hself3 hself2
    have hself5 : assoofs_get_inode_info
        ((s3.set_lock Mutex.assoofs_inodes_mgmt_lock true).set_inode filp
          { ((s3.set_lock Mutex.assoofs_inodes_mgmt_lock true).inode_store filp) with
            file_size := (ppos + buf.length) % 2 ^ 64 })
        (((s3.set_lock Mutex.assoofs_inodes_mgmt_lock true).set_inode filp
          { ((s3.set_lock Mutex.assoofs_inodes_mgmt_lock true).inode_store filp) with
            file_size := (ppos + buf.length) % 2 ^ 64 }).inode_store filp).inode_no = filp := by
      rw [hstore5, e3, hno filp]
      rw [get_inode_info_congr s _ _ (by rw [set_inode_sb, set_lock_sb, hsb3]; rfl)
        (fun j _ => by rw [hstore5, e3, hno j])]
      exact hself
    have e6 := hself6 hself5
    rw [mutex_unlock, set_lock_inode_store, e6, hstore5, e3, write_fill_inode_store,
      Function.update_noteq hk]

/-! ### C12 to C15: the file data path -/

theorem map_getD_range (buf : List Nat) :
    (List.range buf.length).map (fun k => buf.getD k 0) = buf := by
  apply List.ext_getElem
  · simp
  · intro n h1 h2
    simp [h2]

theorem copy_from_user_inside (bytes : Nat → Nat) (pos : Nat) (buf : List Nat) (k : Nat)
    (h1 : pos ≤ k) (h2 : k < pos + buf.length) :
    copy_from_user bytes pos buf k = buf.getD (k - pos) 0 := by
  simp [copy_from_user, h1, h2]

theorem copy_from_user_outside (bytes : Nat → Nat) (pos : Nat) (buf : List Nat) (k : Nat)
    (h : ¬ (pos ≤ k ∧ k < pos + buf.length)) :
    copy_from_user bytes pos buf k = bytes k := by
  simp only [copy_from_user, if_neg h]

/-- C12: with `assoofs_sb_lock` and `assoofs_inodes_mgmt_lock` free, for every regular
file whose recorded data block is a data block (one of blocks 2 to 63, not the superblock
or the inode store) and every byte sequence no longer than one block, `assoofs_write` of
the bytes at position 0 returns their number, and `assoofs_read` at position 0 with that
length then returns the same number and delivers exactly these bytes. -/
theorem write_then_read (H : Header) (sig : Bool) (filp : Nat) (buf : List Nat) (s : Fs)
    (hH : H.ASSOOFS_DEFAULT_BLOCK_SIZE < 2 ^ 64)
    (hlen : buf.length ≤ H.ASSOOFS_DEFAULT_BLOCK_SIZE)
    (_hreg : S_ISREG (s.inode_store filp).mode = true)
    (_hblk : is_data_block (s.inode_store filp).data_block_number = true)
    (hl1 : s.sb_lock = false) (hl2 : s.inodes_mgmt_lock = false) :
    ∃ t, assoofs_write sig filp buf 0 s = some ((buf.length : Int), buf.length, t) ∧
      assoofs_read filp buf.length 0 t = ((buf.length : Int), buf, buf.length) := by
  obtain ⟨t, hw, hdat, hst, _⟩ := write_effect sig filp buf 0 s hl1 hl2
  simp only [Nat.zero_add] at hw hst
  refine ⟨t, hw, ?_⟩
  have hsize : (t.inode_store filp).file_size = buf.length := by
    rw [hst]
    exact Nat.mod_eq_of_lt (by omega)
  have hblk : (t.inode_store filp).data_block_number =
      (s.inode_store filp).data_block_number := by rw [hst]
  unfold assoofs_read
  simp only [hsize, hblk, ge_iff_le, Nat.le_zero, min_self, Nat.zero_add]
  by_cases hz : buf.length = 0
  · have : buf = [] := List.length_eq_zero.mp hz
    subst this
    simp
  · rw [if_neg hz]
    have hmap : (List.range buf.length).map
        (t.data_block (s.inode_store filp).data_block_number) = buf := by
      rw [hdat, Function.update_same]
      have : ∀ k ∈ List.range buf.length,
          copy_from_user (s.data_block (s.inode_store filp).data_block_number) 0 buf k =
            (fun k => buf.getD k 0) k := by
        intro k hk
        rw [List.mem_range] at hk
        rw [copy_from_user_inside _ _ _ _ (Nat.zero_le _) (by omega)]
        simp
      rw [List.map_congr_left this, map_getD_range]
    rw [hmap]

/-- C12, instance: three bytes written to the file of `one_file_fs` and read back. -/
theorem write_then_read_witness :
    ∃ t, assoofs_write false 1 [104, 111, 108] 0 one_file_fs =
        some ((([104, 111, 108] : List Nat).length : Int), ([104, 111, 108] : List Nat).length, t) ∧
      assoofs_read 1 ([104, 111, 108] : List Nat).length 0 t =
        ((([104, 111, 108] : List Nat).length : Int), [104, 111, 108],
          ([104, 111, 108] : List Nat).length) :=
  write_then_read header_4096 false 1 [104, 111, 108] one_file_fs (by decide) (by decide)
    (by decide) (by decide) (by decide) (by decide)

/-- C13: `assoofs_read` at a position at or past `file_size` returns 0, delivers nothing
and leaves the position; at a position before `file_size` it returns
`n = min file_size len`, delivers `n` bytes, the bytes 0 to `n - 1` of the file's data
block whatever the position, and advances the position by `n`.  As a request it leaves the
whole state as it is. -/
theorem read_effect (B : Build) (filp len ppos : Nat) (s : Fs) :
    ((s.inode_store filp).file_size ≤ ppos → assoofs_read filp len ppos s = (0, [], ppos)) ∧
    (ppos < (s.inode_store filp).file_size →
      (assoofs_read filp len ppos s).1 = ((min (s.inode_store filp).file_size len : Nat) : Int) ∧
      (assoofs_read filp len ppos s).2.1.length = min (s.inode_store filp).file_size len ∧
      (∀ k, k < min (s.inode_store filp).file_size len →
        (assoofs_read filp len ppos s).2.1.getD k 0 =
          s.data_block (s.inode_store filp).data_block_number k) ∧
      (assoofs_read filp len ppos s).2.2 = ppos + min (s.inode_store filp).file_size len ∧
      (assoofs_read filp len ppos s).2.1 = (assoofs_read filp len 0 s).2.1) ∧
    (Op.read filp len ppos).step B s = some s := by
  refine ⟨?_, ?_, rfl⟩
  · intro h
    simp [assoofs_read, h]
  · intro h
    have h0 : ¬ (s.inode_store filp).file_size ≤ ppos := by omega
    have h00 : ¬ (s.inode_store filp).file_size ≤ 0 := by omega
    simp only [assoofs_read, ge_iff_le, if_neg h0, if_neg h00, List.length_map,
      List.length_range, true_and, Nat.zero_add]
    refine ⟨?_, trivial⟩
    intro k hk
    rw [List.getD_eq_getElem _ _ (by simpa using hk)]
    simp

/-- C13, instance: the root record of the fresh filesystem has size 0, so position 0 is
at the end; and the file of `one_file_fs` after three bytes are written. -/
theorem read_effect_witness :
    assoofs_read 0 10 0 (fresh_fs 0) = (0, [], 0) ∧
    (assoofs_read 1 2 1
      (run build_x86 [Op.write false 1 [104, 111, 108] 0] one_file_fs)).2.1 = [104, 111] :=
  ⟨(read_effect build_x86 0 10 0 (fresh_fs 0)).1 (by decide), by decide⟩

/-- C14: with `assoofs_sb_lock` and `assoofs_inodes_mgmt_lock` free, a regular file whose
slot is the one its inode number resolves to and whose recorded data block is a data block
(one of blocks 2 to 63, not the superblock or the inode store), and `ppos + len` within
one block, `assoofs_write` returns `len`, advances the position to `ppos + len`, sets the
bytes from `ppos` to `ppos + len - 1` of the file's data block to the input and leaves
every other byte and every other block, sets `file_size` in the file's slot to exactly
`ppos + len` and leaves the rest of that record, and leaves every other inode record,
`inodes_count` and the free-block mask. -/
theorem write_frame (H : Header) (sig : Bool) (filp : Nat) (buf : List Nat) (ppos : Nat)
    (s : Fs) (hH : H.ASSOOFS_DEFAULT_BLOCK_SIZE < 2 ^ 64)
    (hlen : ppos + buf.length ≤ H.ASSOOFS_DEFAULT_BLOCK_SIZE)
    (_hreg : S_ISREG (s.inode_store filp).mode = true)
    (_hblk : is_data_block (s.inode_store filp).data_block_number = true)
    (hl1 : s.sb_lock = false) (hl2 : s.inodes_mgmt_lock = false)
    (hself : assoofs_get_inode_info s (s.inode_store filp).inode_no = filp) :
    ∃ t, assoofs_write sig filp buf ppos s = some ((buf.length : Int), ppos + buf.length, t) ∧
      (∀ k, ppos ≤ k → k < ppos + buf.length →
        t.data_block (s.inode_store filp).data_block_number k = buf.getD (k - ppos) 0) ∧
      (∀ k, ¬ (ppos ≤ k ∧ k < ppos + buf.length) →
        t.data_block (s.inode_store filp).data_block_number k =
          s.data_block (s.inode_store filp).data_block_number k) ∧
      (∀ b, b ≠ (s.inode_store filp).data_block_number → t.data_block b = s.data_block b) ∧
      t.inode_store filp = { (s.inode_store filp) with file_size := ppos + buf.length } ∧
      (∀ k, k ≠ filp → t.inode_store k = s.inode_store k) ∧
      t.sb.inodes_count = s.sb.inodes_count ∧ t.sb.free_blocks = s.sb.free_blocks := by
  obtain ⟨t, hw, hdat, hst, hsb, _, _, _, _, _, hothers⟩ :=
    write_effect sig filp buf ppos s hl1 hl2
  refine ⟨t, hw, ?_, ?_, ?_, ?_, hothers hself, by rw [hsb], by rw [hsb]⟩
  · intro k h1 h2
    rw [hdat, Function.update_same, copy_from_user_inside _ _ _ _ h1 h2]
  · intro k hk
    rw [hdat, Function.update_same, copy_from_user_outside _ _ _ _ hk]
  · intro b hb
    rw [hdat, Function.update_noteq hb]
  · rw [hst, Nat.mod_eq_of_lt (by omega)]

/-- C14, instance: three bytes written at position 2 to the file of `one_file_fs`. -/
theorem write_frame_witness :
    ∃ t, assoofs_write false 1 [104, 111, 108] 2 one_file_fs =
        some ((([104, 111, 108] : List Nat).length : Int),
          2 + ([104, 111, 108] : List Nat).length, t) ∧
      (∀ k, 2 ≤ k → k < 2 + ([104, 111, 108] : List Nat).length →
        t.data_block (one_file_fs.inode_store 1).data_block_number k =
          ([104, 111, 108] : List Nat).getD (k - 2) 0) ∧
      (∀ k, ¬ (2 ≤ k ∧ k < 2 + ([104, 111, 108] : List Nat).length) →
        t.data_block (one_file_fs.inode_store 1).data_block_number k =
          one_file_fs.data_block (one_file_fs.inode_store 1).data_block_number k) ∧
      (∀ b, b ≠ (one_file_fs.inode_store 1).data_block_number →
        t.data_block b = one_file_fs.data_block b) ∧
      t.inode_store 1 =
        { (one_file_fs.inode_store 1) with
          file_size := 2 + ([104, 111, 108] : List Nat).length } ∧
      (∀ k, k ≠ 1 → t.inode_store k = one_file_fs.inode_store k) ∧
      t.sb.inodes_count = one_file_fs.sb.inodes_count ∧
      t.sb.free_blocks = one_file_fs.sb.free_blocks :=
  write_frame header_4096 false 1 [104, 111, 108] 2 one_file_fs (by decide) (by decide)
    (by decide) (by decide) (by decide) (by decide) (by decide)

/-- C15 (the code departs from the claim): `assoofs_write` compares `*ppos + len` with
nothing.  For a regular file whose data block is a data block, with the two mutexes free
and `ppos + len` greater than the block size (and below `2 ^ 64`), the call returns `len`,
not an error, advances the position to `ppos + len`, stores the bytes of the input that
fall inside the block, and sets `file_size` to `ppos + len`, more than the block size
that `assoofs_fill_super` declares as the largest file size (`s_maxbytes`). -/
theorem write_past_block_end (H : Header) (sig : Bool) (filp : Nat) (buf : List Nat)
    (ppos : Nat) (s : Fs)
    (_hreg : S_ISREG (s.inode_store filp).mode = true)
    (_hblk : is_data_block (s.inode_store filp).data_block_number = true)
    (hover : H.ASSOOFS_DEFAULT_BLOCK_SIZE < ppos + buf.length)
    (hw64 : ppos + buf.length < 2 ^ 64)
    (hl1 : s.sb_lock = false) (hl2 : s.inodes_mgmt_lock = false) :
    ∃ t, assoofs_write sig filp buf ppos s = some ((buf.length : Int), ppos + buf.length, t) ∧
      (∀ k, ppos ≤ k → k < H.ASSOOFS_DEFAULT_BLOCK_SIZE →
        t.data_block (s.inode_store filp).data_block_number k = buf.getD (k - ppos) 0) ∧
      (t.inode_store filp).file_size = ppos + buf.length ∧
      H.ASSOOFS_DEFAULT_BLOCK_SIZE < (t.inode_store filp).file_size := by
  obtain ⟨t, hw, hdat, hst, _⟩ := write_effect sig filp buf ppos s hl1 hl2
  have hsize : (t.inode_store filp).file_size = ppos + buf.length := by
    rw [hst]; exact Nat.mod_eq_of_lt hw64
  refine ⟨t, hw, ?_, hsize, by rw [hsize]; exact hover⟩
  intro k h1 h2
  rw [hdat, Function.update_same, copy_from_user_inside _ _ _ _ h1 (by omega)]

/-- C15, instance: ten bytes written at position 4090 to the file of `one_file_fs`, whose
block has 4096 bytes: the call returns 10, bytes 4090 to 4095 of block 3 take the first
six bytes of the input, and `file_size` becomes 4100. -/
theorem write_past_block_end_witness :
    ∃ t, assoofs_write false 1 [1, 2, 3, 4, 5, 6, 7, 8, 9, 10] 4090 one_file_fs =
        some ((([1, 2, 3, 4, 5, 6, 7, 8, 9, 10] : List Nat).length : Int),
          4090 + ([1, 2, 3, 4, 5, 6, 7, 8, 9, 10] : List Nat).length, t) ∧
      (∀ k, 4090 ≤ k → k < header_4096.ASSOOFS_DEFAULT_BLOCK_SIZE →
        t.data_block (one_file_fs.inode_store 1).data_block_number k =
          ([1, 2, 3, 4, 5, 6, 7, 8, 9, 10] : List Nat).getD (k - 4090) 0) ∧
      (t.inode_store 1).file_size = 4090 + ([1, 2, 3, 4, 5, 6, 7, 8, 9, 10] : List Nat).length ∧
      header_4096.ASSOOFS_DEFAULT_BLOCK_SIZE < (t.inode_store 1).file_size :=
  write_past_block_end header_4096 false 1 [1, 2, 3, 4, 5, 6, 7, 8, 9, 10] 4090 one_file_fs
    (by decide) (by decide) (by decide) (by decide) (by decide) (by decide)

/-! ### C16: `assoofs_fill_super` -/

/-- C16 (what the code does): `assoofs_fill_super` returns -1 whenever the magic of the
superblock on disk differs from `ASSOOFS_MAGIC` or its block size differs from
`ASSOOFS_DEFAULT_BLOCK_SIZE`, and returns 0 with a root inode of number 1 whenever both
match; the version has no part in the result. -/
theorem fill_super_checks (H : Header) (s : Fs) :
    ((s.sb.magic ≠ H.ASSOOFS_MAGIC ∨ s.sb.block_size ≠ H.ASSOOFS_DEFAULT_BLOCK_SIZE) →
      assoofs_fill_super H s = (-1, none)) ∧
    ((s.sb.magic = H.ASSOOFS_MAGIC ∧ s.sb.block_size = H.ASSOOFS_DEFAULT_BLOCK_SIZE) →
      (assoofs_fill_super H s).1 = 0 ∧
      (assoofs_fill_super H s).2.map (fun inode => inode.i_ino) = some 1) ∧
    (∀ version : Nat,
      assoofs_fill_super H { s with sb := { s.sb with version := version } } =
        assoofs_fill_super H s) := by
  refine ⟨?_, ?_, ?_⟩
  · intro h
    unfold assoofs_fill_super
    by_cases hm : s.sb.magic = H.ASSOOFS_MAGIC
    · rcases h with h | h
      · exact absurd hm h
      · simp [hm, h]
    · simp [hm]
  · rintro ⟨hm, hb⟩
    simp [assoofs_fill_super, hm, hb, ASSOOFS_ROOTDIR_INODE_NUMBER]
  · intro version
    simp [assoofs_fill_super, assoofs_get_inode_info]

/-- C16, instance: the fresh filesystem mounts under `header_4096`, with any version. -/
theorem fill_super_checks_witness :
    (assoofs_fill_super header_4096 (fresh_fs 0)).1 = 0 ∧
    (assoofs_fill_super header_4096 (fresh_fs 0)).2.map (fun inode => inode.i_ino) = some 1 ∧
    assoofs_fill_super header_4096
      { fresh_fs 0 with sb := { (fresh_fs 0).sb with version := 99 } } =
        assoofs_fill_super header_4096 (fresh_fs 0) :=
  ⟨((fill_super_checks header_4096 (fresh_fs 0)).2.1 ⟨rfl, rfl⟩).1,
    ((fill_super_checks header_4096 (fresh_fs 0)).2.1 ⟨rfl, rfl⟩).2,
    (fill_super_checks header_4096 (fresh_fs 0)).2.2 99⟩

/-- C16 (the claim fails): for no version constant does `assoofs_fill_super` reject every
superblock whose version differs from it. -/
theorem fill_super_ignores_version :
    ¬ ∃ version : Nat, ∀ (H : Header) (s : Fs), s.sb.version ≠ version →
      (assoofs_fill_super H s).1 < 0 := by
  rintro ⟨v, h⟩
  have := h header_4096 { fresh_fs 0 with sb := { (fresh_fs 0).sb with version := v + 1 } }
    (by simp)
  revert this
  simp [assoofs_fill_super, header_4096, fresh_fs]

/-! ### The mutexes -/

/-- `assoofs_sb_get_a_freeblock` and the mutexes: it touches `assoofs_sb_lock` only, and
when it returns 0 that mutex is free. -/
theorem get_a_freeblock_locks (B : Build) (sig : Bool) (block : Nat) (s t : Fs) (r : Int)
    (b : Nat) (h : assoofs_sb_get_a_freeblock B sig block s = some (r, b, t)) :
    t.inodes_mgmt_lock = s.inodes_mgmt_lock ∧
    t.directory_children_update_lock = s.directory_children_update_lock ∧
    (r = 0 → t.sb_lock = false) := by
  unfold assoofs_sb_get_a_freeblock at h
  cases hlk : mutex_lock_interruptible sig Mutex.assoofs_sb_lock s with
  | none => rw [hlk] at h; exact absurd h (by simp)
  | some p =>
    obtain ⟨r1, s1⟩ := p
    rw [hlk] at h
    rcases mutex_lock_interruptible_some _ _ _ _ _ hlk with ⟨hr, hs, _⟩ | ⟨hr, hs, _, _⟩
    · subst hr hs
      simp only [ne_eq, not_true_eq_false, if_false] at h
      split at h
      · simp only [Option.some.injEq, Prod.mk.injEq] at h
        obtain ⟨h1, h2, h3⟩ := h
        subst h1 h2 h3
        simp [Fs.set_lock]
      · simp only [Option.some.injEq, Prod.mk.injEq] at h
        obtain ⟨h1, h2, h3⟩ := h
        subst h1 h2 h3
        simp [mutex_unlock, Fs.set_lock]
    · subst hr hs
      simp only [ne_eq, EINTR_ne_zero, not_false_eq_true, if_true, Option.some.injEq,
        Prod.mk.injEq] at h
      obtain ⟨h1, h2, h3⟩ := h
      subst h1 h2 h3
      simp

/-- `assoofs_inode_add_info` never touches the mutex of `assoofs_create`. -/
theorem inode_add_info_directory_lock (sig : Bool) (inode : assoofs_inode_info) (s t : Fs)
    (h : assoofs_inode_add_info sig inode s = some t) :
    t.directory_children_update_lock = s.directory_children_update_lock := by
  unfold assoofs_inode_add_info at h
  cases hlk : mutex_lock_interruptible sig Mutex.assoofs_inodes_mgmt_lock s with
  | none => rw [hlk] at h; exact absurd h (by simp)
  | some p =>
    obtain ⟨r1, s1⟩ := p
    rw [hlk] at h
    rcases mutex_lock_interruptible_some _ _ _ _ _ hlk with ⟨hr, hs, _⟩ | ⟨hr, hs, _, _⟩
    · subst hr hs
      simp only [ne_eq, not_true_eq_false, if_false] at h
      cases hlk2 : mutex_lock_interruptible sig Mutex.assoofs_sb_lock
          (s.set_lock Mutex.assoofs_inodes_mgmt_lock true) with
      | none => rw [hlk2] at h; exact absurd h (by simp)
      | some p2 =>
        obtain ⟨r2, s2⟩ := p2
        rw [hlk2] at h
        rcases mutex_lock_interruptible_some _ _ _ _ _ hlk2 with ⟨hr, hs, _⟩ | ⟨hr, hs, _, _⟩
        · subst hr hs
          simp only [ne_eq, not_true_eq_false, if_false, Option.some.injEq] at h
          subst h
          simp [mutex_unlock, Fs.set_lock, Fs.set_inode]
        · subst hr hs
          simp only [ne_eq, EINTR_ne_zero, not_false_eq_true, if_true, Option.some.injEq] at h
          subst h
          simp [Fs.set_lock]
    · subst hr hs
      simp only [ne_eq, EINTR_ne_zero, not_false_eq_true, if_true, Option.some.injEq] at h
      subst h
      rfl

/-- `assoofs_inode_save` and the mutexes: it touches `assoofs_sb_lock` only. -/
theorem inode_save_locks (sig : Bool) (i_inode : assoofs_inode_info) (s t : Fs) (r : Int)
    (h : assoofs_inode_save sig i_inode s = some (r, t)) :
    t.inodes_mgmt_lock = s.inodes_mgmt_lock ∧
    t.directory_children_update_lock = s.directory_children_update_lock := by
  unfold assoofs_inode_save at h
  cases hlk : mutex_lock_interruptible sig Mutex.assoofs_sb_lock s with
  | none => rw [hlk] at h; exact absurd h (by simp)
  | some p =>
    obtain ⟨r1, s1⟩ := p
    rw [hlk] at h
    rcases mutex_lock_interruptible_some _ _ _ _ _ hlk with ⟨hr, hs, _⟩ | ⟨hr, hs, _, _⟩
    · subst hr hs
      simp only [ne_eq, not_true_eq_false, if_false, Option.some.injEq, Prod.mk.injEq] at h
      obtain ⟨h1, h2⟩ := h
      subst h1 h2
      simp [mutex_unlock, Fs.set_lock, Fs.set_inode]
    · subst hr hs
      simp only [ne_eq, EINTR_ne_zero, not_false_eq_true, if_true, Option.some.injEq,
        Prod.mk.injEq] at h
      obtain ⟨h1, h2⟩ := h
      subst h1 h2
      simp

@[simp] theorem create_link_sb_lock (dir : Nat) (name : String) (k : Nat) (s : Fs) :
    (create_link dir name k s).sb_lock = s.sb_lock := rfl

@[simp] theorem create_link_inodes_mgmt_lock (dir : Nat) (name : String) (k : Nat) (s : Fs) :
    (create_link dir name k s).inodes_mgmt_lock = s.inodes_mgmt_lock := rfl

@[simp] theorem create_link_directory_lock (dir : Nat) (name : String) (k : Nat) (s : Fs) :
    (create_link dir name k s).directory_children_update_lock =
      s.directory_children_update_lock := rfl

/-- The ways `assoofs_create` returns, with the state of its mutex at the call: held, and
the wait is interrupted; or free, and the call goes on to the allocator. -/
theorem create_cases (B : Build) (sig : Bool) (dir : Nat) (name : String) (mode : Nat)
    (s t : Fs) (r : Int) (h : assoofs_create B sig dir name mode s = some (r, t)) :
    (r = -EINTR ∧ t = s ∧ s.directory_children_update_lock = true) ∨
    s.directory_children_update_lock = false ∧ ∃ i block s4,
      assoofs_sb_get_a_freeblock B sig
        ((create_fill B mode
          (s.set_lock Mutex.assoofs_directory_children_update_lock true)).inode_store
            (create_i_info B s)).data_block_number
        (create_fill B mode (s.set_lock Mutex.assoofs_directory_children_update_lock true))
          = some (i, block, s4) ∧
      ((i < 0 ∧ r = i ∧
        t = s4.set_inode (create_i_info B s)
          { (s4.inode_store (create_i_info B s)) with data_block_number := block }) ∨
       (¬ i < 0 ∧ ∃ s6,
          assoofs_inode_add_info sig
            ((s4.set_inode (create_i_info B s)
              { (s4.inode_store (create_i_info B s)) with
                data_block_number := block }).inode_store (create_i_info B s))
            (s4.set_inode (create_i_info B s)
              { (s4.inode_store (create_i_info B s)) with data_block_number := block })
              = some s6 ∧
          assoofs_inode_save sig
            ((create_link dir name (create_i_info B s) s6).inode_store dir)
            (create_link dir name (create_i_info B s) s6) = some (r, t))) := by
  rw [assoofs_create_eq] at h
  cases hlk : mutex_lock_interruptible sig Mutex.assoofs_directory_children_update_lock s with
  | none => rw [hlk] at h; exact absurd h (by simp)
  | some p =>
    obtain ⟨r1, s1⟩ := p
    rw [hlk] at h
    rcases mutex_lock_interruptible_some _ _ _ _ _ hlk with ⟨hr, hs, hfree⟩ | ⟨hr, hs, hheld, _⟩
    · subst hr hs
      simp only [ne_eq, not_true_eq_false, if_false, create_i_info_set_lock] at h
      right
      cases hal : assoofs_sb_get_a_freeblock B sig
          ((create_fill B mode
            (s.set_lock Mutex.assoofs_directory_children_update_lock true)).inode_store
              (create_i_info B s)).data_block_number
          (create_fill B mode (s.set_lock Mutex.assoofs_directory_children_update_lock true)) with
      | none => rw [hal] at h; exact absurd h (by simp)
      | some q =>
        obtain ⟨i, block, s4⟩ := q
        rw [hal] at h
        refine ⟨hfree, i, block, s4, rfl, ?_⟩
        by_cases hi : i < 0
        · simp only [hi, if_true, Option.some.injEq, Prod.mk.injEq] at h
          exact Or.inl ⟨hi, h.1.symm, h.2.symm⟩
        · simp only [hi, if_false] at h
          right
          refine ⟨hi, ?_⟩
          cases had : assoofs_inode_add_info sig
              ((s4.set_inode (create_i_info B s)
                { (s4.inode_store (create_i_info B s)) with
                  data_block_number := block }).inode_store (create_i_info B s))
              (s4.set_inode (create_i_info B s)
                { (s4.inode_store (create_i_info B s)) with data_block_number := block }) with
          | none => rw [had] at h; exact absurd h (by simp)
          | some s6 =>
            rw [had] at h
            dsimp only at h
            refine ⟨s6, rfl, ?_⟩
            cases hsv : assoofs_inode_save sig
                ((create_link dir name (create_i_info B s) s6).inode_store dir)
                (create_link dir name (create_i_info B s) s6) with
            | none => rw [hsv] at h; exact absurd h (by simp)
            | some q2 =>
              obtain ⟨r2, s9⟩ := q2
              rw [hsv] at h
              dsimp only at h
              by_cases hr2 : r2 = 0
              · simp only [hr2, ne_eq, not_true_eq_false, if_false, Option.some.injEq,
                  Prod.mk.injEq] at h
                rw [hr2, ← h.1, ← h.2]
              · simp only [hr2, ne_eq, not_false_eq_true, if_true, Option.some.injEq,
                  Prod.mk.injEq] at h
                rw [← h.1, ← h.2]
    · subst hr hs
      simp only [ne_eq, EINTR_ne_zero, not_false_eq_true, if_true, Option.some.injEq,
        Prod.mk.injEq] at h
      exact Or.inl ⟨h.1.symm, h.2.symm, hheld⟩

/-- A call of `assoofs_create` that returns leaves its own mutex held. -/
theorem create_directory_lock (B : Build) (sig : Bool) (dir : Nat) (name : String)
    (mode : Nat) (s t : Fs) (r : Int)
    (h : assoofs_create B sig dir name mode s = some (r, t)) :
    t.directory_children_update_lock = true := by
  have h0 : (s.set_lock Mutex.assoofs_directory_children_update_lock
      true).directory_children_update_lock = true := by simp [Fs.set_lock]
  rcases create_cases B sig dir name mode s t r h with
    ⟨_, ht, hheld⟩ | ⟨_, i, block, s4, hal, hc⟩
  · rw [ht]; exact hheld
  · obtain ⟨_, h4, _⟩ := get_a_freeblock_locks B sig _ _ s4 i block hal
    rw [create_fill_directory_lock, h0] at h4
    rcases hc with ⟨_, _, ht⟩ | ⟨_, s6, had, hsv⟩
    · rw [ht]; simpa using h4
    · have h6 := inode_add_info_directory_lock sig _ _ s6 had
      have h9 := (inode_save_locks sig _ _ t r hsv).2
      rw [h9, create_link_directory_lock, h6]
      simpa using h4

/-- `assoofs_create` on a state in which its mutex is held: without a signal the call
never returns, with a signal it returns `-EINTR` and the state is as it was. -/
theorem create_on_held_lock (B : Build) (sig : Bool) (dir : Nat) (name : String) (mode : Nat)
    (s : Fs) (h : s.directory_children_update_lock = true) :
    assoofs_create B sig dir name mode s = if sig then some (-EINTR, s) else none := by
  unfold assoofs_create
  cases sig <;> simp [mutex_lock_interruptible, Fs.locked, h, EINTR]

/-! ### C17: interrupted waits -/

/-- C17 (the code departs from the claim).  On the fresh filesystem with
`assoofs_inodes_mgmt_lock` held and a signal pending, `assoofs_create` returns 0 although
the wait inside `assoofs_inode_add_info` was interrupted: a block is taken from the mask
and the parent gets the new record and one more child, while `inodes_count` stays 1.  With
`assoofs_sb_lock` held instead, the interrupted wait of the allocator makes it return -1,
not `-EINTR`, after slot 1 was written.  And `assoofs_write` on the file of `one_file_fs`,
with `assoofs_inodes_mgmt_lock` held and a signal pending, returns `-EINTR` after it has
stored the bytes and the new `file_size`. -/
theorem interrupted_wait_mutates :
    (assoofs_create build_x86 true 0 "a" S_IFREG
        { fresh_fs (2 ^ 64 - 8) with inodes_mgmt_lock := true }).map
      (fun r => (r.1, r.2.sb.inodes_count, r.2.sb.free_blocks,
        (r.2.inode_store 0).dir_children_count, r.2.dir_block 2 0)) =
      some (0, 1, 2 ^ 64 - 16, 1, ⟨"a", 2⟩) ∧
    (assoofs_create build_x86 true 0 "a" S_IFREG
        { fresh_fs (2 ^ 64 - 8) with sb_lock := true }).map
      (fun r => (r.1, (r.2.inode_store 1).inode_no, (r.2.inode_store 1).mode)) =
      some (-1, 2, S_IFREG) ∧
    (assoofs_write true 1 [104, 111, 108] 0
        { one_file_fs with inodes_mgmt_lock := true }).map
      (fun r => (r.1, (r.2.2.inode_store 1).file_size, r.2.2.data_block 3 0)) =
      some (-EINTR, 3, 104) := by
  decide

/-! ### C19: the mutexes after a call -/

/-- C19 (the code departs from the claim).  Every call of `assoofs_create` that returns
leaves `assoofs_directory_children_update_lock` held, so that the next call of
`assoofs_create` never returns unless a signal interrupts it, and then it returns
`-EINTR`; and a call of `assoofs_sb_get_a_freeblock` that starts with `assoofs_sb_lock`
free and finds no block returns -1 with `assoofs_sb_lock` held. -/
theorem mutexes_left_held (B : Build) :
    (∀ (sig : Bool) (dir : Nat) (name : String) (mode : Nat) (s t : Fs) (r : Int),
      assoofs_create B sig dir name mode s = some (r, t) →
      t.directory_children_update_lock = true ∧
      ∀ (dir2 : Nat) (name2 : String) (mode2 : Nat),
        assoofs_create B false dir2 name2 mode2 t = none ∧
        assoofs_create B true dir2 name2 mode2 t = some (-EINTR, t)) ∧
    (∀ (sig : Bool) (block : Nat) (s : Fs), s.sb_lock = false →
      (∀ i, i < 64 → s.sb.free_blocks.testBit i = false) →
      ∃ t, assoofs_sb_get_a_freeblock B sig block s = some (-1, block, t) ∧
        t.sb_lock = true) := by
  constructor
  · intro sig dir name mode s t r h
    have hheld := create_directory_lock B sig dir name mode s t r h
    refine ⟨hheld, fun dir2 name2 mode2 => ⟨?_, ?_⟩⟩
    · rw [create_on_held_lock B false dir2 name2 mode2 t hheld]; rfl
    · rw [create_on_held_lock B true dir2 name2 mode2 t hheld]; rfl
  · intro sig block s hl hz
    have hscan : freeblock_scan B.wide_shift s.sb.free_blocks 62 2 = 64 := by
      rw [freeblock_scan_none B.wide_shift s.sb.free_blocks 62 2
        (fun j _ _ => and_eq_zero_of_low_clear _ _ hz (toU64_lt _))]
    rw [get_a_freeblock_eq B sig block s hl, hscan, if_pos (le_refl _)]
    exact ⟨_, rfl, rfl⟩

/-- C19, instance: the first creation on the fresh filesystem returns 0 and keeps its
mutex; the allocator on an empty mask keeps `assoofs_sb_lock`. -/
theorem mutexes_left_held_witness :
    (assoofs_create build_x86 false 0 "a.txt" S_IFREG (fresh_fs (2 ^ 64 - 8))).map
      (fun r => (r.1, r.2.directory_children_update_lock)) = some (0, true) ∧
    (∃ t, assoofs_sb_get_a_freeblock build_x86 false 0 (fresh_fs 0) = some (-1, 0, t) ∧
      t.sb_lock = true) :=
  ⟨by decide, (mutexes_left_held build_x86).2 false 0 (fresh_fs 0) rfl
    (fun i _ => by simp [fresh_fs])⟩

/-! ### What a request does to the mask and to the history -/

theorem get_a_freeblock_allocates (B : Build) (sig : Bool) (block : Nat) (s t : Fs) (r : Int)
    (b : Nat) (h : assoofs_sb_get_a_freeblock B sig block s = some (r, b, t)) :
    allocates B s t := by
  obtain ⟨_, _, _, _, hc⟩ := get_a_freeblock_some B sig block s t r b h
  rcases hc with ⟨_, _, hsb, hff⟩ | ⟨_, hb, hlt, hmask, hff⟩
  · exact Or.inl ⟨by rw [hsb], hff⟩
  · subst hb
    exact Or.inr ⟨hlt, hmask, hff⟩

theorem create_allocates (B : Build) (sig : Bool) (dir : Nat) (name : String) (mode : Nat)
    (s t : Fs) (r : Int) (h : assoofs_create B sig dir name mode s = some (r, t)) :
    allocates B s t := by
  rcases create_some B sig dir name mode s t r h with ⟨_, ht⟩ | ⟨i, block, s4, hal, hc⟩
  · rw [ht]; exact Or.inl ⟨rfl, rfl⟩
  · have h4 := get_a_freeblock_allocates B sig _ _ s4 i block hal
    simp only [allocates, create_fill_sb, set_lock_sb, create_fill_found_free,
      set_lock_found_free] at h4
    have key : t.sb.free_blocks = s4.sb.free_blocks ∧ t.found_free = s4.found_free := by
      rcases hc with ⟨_, _, ht⟩ | ⟨_, s6, had, hsv⟩
      · rw [ht]; exact ⟨rfl, rfl⟩
      · obtain ⟨_, _, hff6, hfb6, _⟩ := inode_add_info_some sig _ _ s6 had
        obtain ⟨hsb, _, _, hff, _⟩ := inode_save_some sig _ _ t r hsv
        exact ⟨by rw [hsb]; simpa using hfb6, by rw [hff]; simpa using hff6⟩
    unfold allocates
    rw [key.1, key.2]
    exact h4

theorem step_allocates (B : Build) (op : Op) (s t : Fs) (h : op.step B s = some t) :
    allocates B s t := by
  cases op with
  | get_a_freeblock sig block =>
    simp only [Op.step, Option.map_eq_some'] at h
    obtain ⟨⟨r, b, u⟩, hu, rfl⟩ := h
    exact get_a_freeblock_allocates B sig block s u r b hu
  | create sig dir name mode =>
    simp only [Op.step, Option.map_eq_some'] at h
    obtain ⟨⟨r, u⟩, hu, rfl⟩ := h
    exact create_allocates B sig dir name mode s u r hu
  | mkdir sig dir name mode =>
    simp only [Op.step, Option.map_eq_some', assoofs_mkdir] at h
    obtain ⟨⟨r, u⟩, hu, rfl⟩ := h
    exact create_allocates B sig dir name _ s u r hu
  | write sig filp buf ppos =>
    simp only [Op.step, Option.map_eq_some'] at h
    obtain ⟨⟨r, p, u⟩, hu, rfl⟩ := h
    obtain ⟨hsb, _, hff⟩ := write_some sig filp buf ppos s u r p hu
    exact Or.inl ⟨by rw [hsb], hff⟩
  | lookup parent name =>
    simp only [Op.step, Option.some.injEq] at h
    rw [← h]; exact Or.inl ⟨rfl, rfl⟩
  | read filp len ppos =>
    simp only [Op.step, Option.some.injEq] at h
    rw [← h]; exact Or.inl ⟨rfl, rfl⟩
  | iterate filp pos =>
    simp only [Op.step, Option.some.injEq] at h
    rw [← h]; exact Or.inl ⟨rfl, rfl⟩

/-! ### C18: the reserved blocks -/

/-- With bit 2 of the mask clear, the block the loop stops at is not below 3. -/
theorem freeblock_scan_ge_three (wide : Nat → Int) (m : Nat) (h2 : m.testBit 2 = false)
    (hlt : freeblock_scan wide m 62 2 < 64) : 3 ≤ freeblock_scan wide m 62 2 := by
  have hle := (freeblock_scan_le wide m 62 2).1
  by_contra hcon
  have heq : freeblock_scan wide m 62 2 = 2 := by omega
  have hhit := freeblock_scan_hit wide m 62 2 (by omega)
  rw [heq, shl_one_low wide 2 (by norm_num)] at hhit
  rw [(and_two_pow_ne_zero m 2).mp hhit] at h2
  exact absurd h2 (by simp)

theorem allocates_reserved_clear (B : Build) (s t : Fs) (h : allocates B s t)
    (hr : reserved_clear s) : reserved_clear t := by
  rcases h with ⟨hfb, _⟩ | ⟨_, hfb, _⟩
  · unfold reserved_clear
    rw [hfb]
    exact hr
  · unfold reserved_clear
    rw [hfb]
    simp only [Nat.testBit_and, hr.1, hr.2.1, hr.2.2, Bool.false_and, and_self]

theorem allocates_from_three (B : Build) (s t : Fs) (h : allocates B s t)
    (hr : reserved_clear s) (hff : ∀ b ∈ s.found_free, 3 ≤ b) :
    ∀ b ∈ t.found_free, 3 ≤ b := by
  rcases h with ⟨_, hf⟩ | ⟨hlt, _, hf⟩
  · rw [hf]
    exact hff
  · intro b hb
    rw [hf, List.mem_cons] at hb
    rcases hb with rfl | hb
    · exact freeblock_scan_ge_three B.wide_shift _ hr.2.2 hlt
    · exact hff b hb

theorem run_reserved_clear (B : Build) (ops : List Op) (s : Fs) (hr : reserved_clear s) :
    reserved_clear (run B ops s) := by
  induction ops generalizing s with
  | nil => exact hr
  | cons op ops ih =>
    unfold run
    cases hst : op.step B s with
    | none => exact hr
    | some s1 => exact ih s1 (allocates_reserved_clear B s s1 (step_allocates B op s s1 hst) hr)

theorem run_from_three (B : Build) (ops : List Op) (s : Fs)
    (hr : reserved_clear s) (hff : ∀ b ∈ s.found_free, 3 ≤ b) :
    ∀ b ∈ (run B ops s).found_free, 3 ≤ b := by
  induction ops generalizing s with
  | nil => exact hff
  | cons op ops ih =>
    unfold run
    cases hst : op.step B s with
    | none => exact hff
    | some s1 =>
      have hal := step_allocates B op s s1 hst
      exact ih s1 (allocates_reserved_clear B s s1 hal hr) (allocates_from_three B s s1 hal hr hff)

/-- C18: take a state in which bits 0, 1 and 2 of the mask are 0, with an empty history of
the allocator.  After any sequence of requests (allocations, creations of files and
directories, writes, reads, lookups, listings) whose stores stay inside the data blocks,
these bits are still 0, and every block handed out during the sequence, by a direct call
of the allocator or inside a creation, has a number from 3 on; and a call of
`assoofs_sb_get_a_freeblock` in the state that returns 0 returns a block number from 3
on. -/
theorem reserved_blocks_stay_reserved (H : Header) (B : Build) (ops : List Op) (s : Fs)
    (hr : reserved_clear s) (hff : s.found_free = [])
    (_hadm : admissible H B ops s = true) :
    reserved_clear (run B ops s) ∧
    (∀ b ∈ (run B ops s).found_free, 3 ≤ b) ∧
    (∀ (sig : Bool) (block : Nat) (r : Int) (b : Nat) (t : Fs),
      assoofs_sb_get_a_freeblock B sig block s = some (r, b, t) → r = 0 → 3 ≤ b) := by
  refine ⟨run_reserved_clear B ops s hr, ?_, ?_⟩
  · exact run_from_three B ops s hr
      (fun b h => absurd h (by rw [hff]; exact List.not_mem_nil b))
  · intro sig block r b t h hr0
    obtain ⟨_, _, _, _, hc⟩ := get_a_freeblock_some B sig block s t r b h
    rcases hc with ⟨hm, _⟩ | ⟨_, hb, hlt, _, _⟩
    · rw [hr0] at hm; exact absurd hm (by decide)
    · rw [hb] at hlt ⊢
      exact freeblock_scan_ge_three B.wide_shift _ hr.2.2 hlt

/-- C18, instance: the fresh filesystem with blocks 3 to 63 free; an allocation, the
creation of a file in the root, a write to the file, a read, a lookup, a listing and
another allocation. -/
theorem reserved_blocks_stay_reserved_witness :
    reserved_clear (run build_x86
      [Op.get_a_freeblock false 0, Op.create false 0 "a" S_IFREG,
        Op.write false 1 [104, 111, 108] 0, Op.read 1 3 0, Op.lookup 0 "a", Op.iterate 0 0,
        Op.get_a_freeblock false 0]
      (fresh_fs (2 ^ 64 - 8))) ∧
    (∀ b ∈ (run build_x86
      [Op.get_a_freeblock false 0, Op.create false 0 "a" S_IFREG,
        Op.write false 1 [104, 111, 108] 0, Op.read 1 3 0, Op.lookup 0 "a", Op.iterate 0 0,
        Op.get_a_freeblock false 0]
      (fresh_fs (2 ^ 64 - 8))).found_free, 3 ≤ b) ∧
    (∀ (sig : Bool) (block : Nat) (r : Int) (b : Nat) (t : Fs),
      assoofs_sb_get_a_freeblock build_x86 sig block (fresh_fs (2 ^ 64 - 8)) = some (r, b, t) →
        r = 0 → 3 ≤ b) :=
  reserved_blocks_stay_reserved header_4096 build_x86 _ (fresh_fs (2 ^ 64 - 8))
    ⟨by decide, by decide, by decide⟩ rfl (by decide)

/-! ### C20: the inode numbers and `inodes_count` -/

theorem nodup_length_le (l : List Nat) (hn : l.Nodup) (hlt : ∀ b ∈ l, b < 64) :
    l.length ≤ 64 := by
  have hsub : l.toFinset ⊆ Finset.range 64 := by
    intro b hb
    rw [List.mem_toFinset] at hb
    exact Finset.mem_range.mpr (hlt b hb)
  have := Finset.card_le_card hsub
  rw [List.toFinset_card_of_nodup hn, Finset.card_range] at this
  exact this

theorem allocates_history (B : Build) (s t : Fs) (h : allocates B s t)
    (hlt : ∀ b ∈ s.found_free, b < 64) :
    (∀ b ∈ t.found_free, b < 64) ∧ s.found_free.length ≤ t.found_free.length := by
  rcases h with ⟨_, hf⟩ | ⟨hs, _, hf⟩
  · rw [hf]; exact ⟨hlt, le_refl _⟩
  · rw [hf]
    refine ⟨?_, by simp⟩
    intro b hb
    rw [List.mem_cons] at hb
    rcases hb with rfl | hb
    · exact hs
    · exact hlt b hb

/-- `assoofs_create` and `inodes_count`, when `assoofs_inodes_mgmt_lock` is free at the
call: that mutex is free at the return; `inodes_count` is as before, or it is incremented
and a block was handed out; and it is incremented when the call returns 0. -/
theorem create_accounting (B : Build) (sig : Bool) (dir : Nat) (name : String) (mode : Nat)
    (s t : Fs) (r : Int) (hm : s.inodes_mgmt_lock = false)
    (h : assoofs_create B sig dir name mode s = some (r, t)) :
    t.inodes_mgmt_lock = false ∧
    (t.sb.inodes_count = s.sb.inodes_count ∨
      (t.sb.inodes_count = (s.sb.inodes_count + 1) % 2 ^ 64 ∧
        t.found_free.length = s.found_free.length + 1)) ∧
    (r = 0 → t.sb.inodes_count = (s.sb.inodes_count + 1) % 2 ^ 64) := by
  rcases create_cases B sig dir name mode s t r h with
    ⟨hr, ht, _⟩ | ⟨_, i, block, s4, hal, hc⟩
  · subst ht
    refine ⟨hm, Or.inl rfl, ?_⟩
    intro h0
    rw [h0] at hr
    exact absurd hr (by decide)
  · obtain ⟨hst4, _, _, hc4, hview⟩ := get_a_freeblock_some B sig _ _ s4 i block hal
    obtain ⟨hm4, _, hsb4⟩ := get_a_freeblock_locks B sig _ _ s4 i block hal
    simp only [create_fill_sb, set_lock_sb, create_fill_found_free, set_lock_found_free]
      at hc4 hview
    have hm4' : s4.inodes_mgmt_lock = false := by
      rw [hm4, create_fill_inodes_mgmt_lock]
      simpa [Fs.set_lock] using hm
    rcases hc with ⟨hneg, hri, ht⟩ | ⟨hnn, s6, had, hsv⟩
    · subst ht
      refine ⟨by simpa using hm4', Or.inl (by simpa using hc4), ?_⟩
      intro h0
      rw [hri] at h0
      rw [h0] at hneg
      exact absurd hneg (by decide)
    · rcases hview with ⟨hi, _⟩ | ⟨hi, _, _, _, hff4⟩
      · rw [hi] at hnn
        exact absurd (by decide) hnn
      · have hsb4' : s4.sb_lock = false := hsb4 hi
        rw [inode_add_info_eq sig _ _ (by simpa using hm4') (by simpa using hsb4')] at had
        simp only [Option.some.injEq] at had
        obtain ⟨hsbt, _, _, hfft, _⟩ := inode_save_some sig _ _ t r hsv
        obtain ⟨hmt, _⟩ := inode_save_locks sig _ _ t r hsv
        have hcount : t.sb.inodes_count = (s.sb.inodes_count + 1) % 2 ^ 64 := by
          rw [hsbt, create_link_sb, ← had]
          simp [hc4]
        refine ⟨?_, Or.inr ⟨hcount, ?_⟩, fun _ => hcount⟩
        · rw [hmt, create_link_inodes_mgmt_lock, ← had]
        · rw [hfft, create_link_found_free, ← had]
          simp [hff4]

/-- `assoofs_write` leaves `inodes_count` and the inode numbers of all slots alone, and
`assoofs_inodes_mgmt_lock` free if it was. -/
theorem write_numbers (sig : Bool) (filp : Nat) (buf : List Nat) (ppos : Nat) (s t : Fs)
    (r : Int) (p : Nat) (h : assoofs_write sig filp buf ppos s = some (r, p, t)) :
    t.sb = s.sb ∧
    (∀ k, k < s.sb.inodes_count → (t.inode_store k).inode_no = (s.inode_store k).inode_no) ∧
    (s.inodes_mgmt_lock = false → t.inodes_mgmt_lock = false) := by
  have hno : ∀ j, ((write_fill filp buf ppos s).inode_store j).inode_no =
      (s.inode_store j).inode_no := by
    intro j
    rw [write_fill_inode_store]
    by_cases hj : j = filp
    · subst hj; simp
    · simp [hj]
  rw [assoofs_write_eq] at h
  split at h
  · exact absurd h (by simp)
  · rename_i r3 s3 hsv1
    obtain ⟨hsb3, hlive3⟩ := inode_save_live_numbers sig _ _ s3 r3 hsv1
    obtain ⟨hm3, _⟩ := inode_save_locks sig _ _ s3 r3 hsv1
    simp only [write_fill_sb] at hsb3 hlive3
    split at h
    · exact absurd h (by simp)
    · rename_i r4 s4 hlk
      rcases mutex_lock_interruptible_some _ _ _ _ _ hlk with ⟨hr, hs, _⟩ | ⟨hr, hs, hheld, _⟩
      · subst hr hs
        simp only [ne_eq, not_true_eq_false, if_false] at h
        split at h
        · exact absurd h (by simp)
        · rename_i r6 s6 hsv2
          obtain ⟨hsb6, hlive6⟩ := inode_save_live_numbers sig _ _ s6 r6 hsv2
          simp only [Option.some.injEq, Prod.mk.injEq] at h
          obtain ⟨_, _, ht⟩ := h
          subst ht
          simp only [set_inode_sb, set_lock_sb] at hsb6 hlive6
          refine ⟨by simp [mutex_unlock, hsb6, hsb3], ?_, fun _ => by simp [mutex_unlock, Fs.set_lock]⟩
          intro k hk
          rw [mutex_unlock, set_lock_inode_store, hlive6 k (by rw [hsb3]; exact hk)]
          rw [← hno k, ← hlive3 k hk]
          by_cases hkf : k = filp
          · subst hkf; simp
          · simp [hkf]
      · subst hr hs
        simp only [ne_eq, EINTR_ne_zero, not_false_eq_true, if_true, Option.some.injEq,
          Prod.mk.injEq] at h
        obtain ⟨_, _, ht⟩ := h
        subst ht
        refine ⟨hsb3, fun k hk => by rw [hlive3 k hk, hno k], ?_⟩
        intro hm
        have hl : s.inodes_mgmt_lock = true := by
          rw [← write_fill_inodes_mgmt_lock filp buf ppos s, ← hm3]
          simpa [Fs.locked] using hheld
        rw [hm] at hl
        exact absurd hl (by simp)

theorem create_accounted (B : Build) (sig : Bool) (dir : Nat) (name : String) (mode : Nat)
    (s t : Fs) (r : Int) (hB : B.ASSOOFS_START_INO = B.ASSOOFS_RESERVED_INODES)
    (h : assoofs_create B sig dir name mode s = some (r, t)) (ha : accounted B s) :
    accounted B t ∧ s.sb.inodes_count ≤ t.sb.inodes_count ∧
      (r = 0 → t.sb.inodes_count = s.sb.inodes_count + 1) := by
  obtain ⟨hn, h1, hm, hle, hho, hlt⟩ := ha
  have hnt := create_numbered B sig dir name mode s t r hB h hn
  have hhot := create_handed_out_once B sig dir name mode s t r h hho
  obtain ⟨hltt, hlen⟩ := allocates_history B s t (create_allocates B sig dir name mode s t r h) hlt
  have hbound := nodup_length_le t.found_free hhot.1 hltt
  obtain ⟨hmt, hcnt, hr0⟩ := create_accounting B sig dir name mode s t r hm h
  have hstep : t.sb.inodes_count = (s.sb.inodes_count + 1) % 2 ^ 64 →
      t.found_free.length = s.found_free.length + 1 →
      t.sb.inodes_count = s.sb.inodes_count + 1 := by
    intro hc hl
    rw [hc]
    apply Nat.mod_eq_of_lt
    have : s.sb.inodes_count + 1 ≤ 66 := by omega
    exact lt_of_le_of_lt this (by norm_num)
  have hcases : t.sb.inodes_count = s.sb.inodes_count ∨
      (t.sb.inodes_count = s.sb.inodes_count + 1 ∧
        t.found_free.length = s.found_free.length + 1) := by
    rcases hcnt with hc | ⟨hc, hl⟩
    · exact Or.inl hc
    · exact Or.inr ⟨hstep hc hl, hl⟩
  refine ⟨⟨hnt, ?_, hmt, ?_, hhot, hltt⟩, ?_, ?_⟩
  · rcases hcases with hc | ⟨hc, _⟩ <;> omega
  · rcases hcases with hc | ⟨hc, hl⟩ <;> omega
  · rcases hcases with hc | ⟨hc, _⟩ <;> omega
  · intro h0
    have hc := hr0 h0
    rcases hcases with hc2 | ⟨hc2, _⟩
    · rw [hc2] at hc
      have hs : s.sb.inodes_count + 1 ≤ 66 := by omega
      rw [Nat.mod_eq_of_lt (lt_of_le_of_lt hs (by norm_num))] at hc
      omega
    · exact hc2

/-- Every request that returns keeps the bookkeeping and does not lower `inodes_count`. -/
theorem step_accounted (B : Build) (op : Op) (s t : Fs)
    (hB : B.ASSOOFS_START_INO = B.ASSOOFS_RESERVED_INODES)
    (h : op.step B s = some t) (ha : accounted B s) :
    accounted B t ∧ s.sb.inodes_count ≤ t.sb.inodes_count := by
  cases op with
  | get_a_freeblock sig block =>
    have hal := step_allocates B _ s t h
    have hho := step_handed_out_once B _ s t h ha.2.2.2.2.1
    simp only [Op.step, Option.map_eq_some'] at h
    obtain ⟨⟨r, b, u⟩, hu, rfl⟩ := h
    obtain ⟨hst, _, _, hc, _⟩ := get_a_freeblock_some B sig block s u r b hu
    obtain ⟨hmu, _, _⟩ := get_a_freeblock_locks B sig block s u r b hu
    obtain ⟨hn, h1, hm, hle, _, hlt⟩ := ha
    obtain ⟨hltt, hlen⟩ := allocates_history B s u hal hlt
    dsimp only at hc hst hmu hltt hlen hho ⊢
    refine ⟨⟨?_, by omega, by rw [hmu, hm], by omega, hho, hltt⟩, by omega⟩
    unfold numbered
    rw [hc, hst]
    exact hn
  | create sig dir name mode =>
    simp only [Op.step, Option.map_eq_some'] at h
    obtain ⟨⟨r, u⟩, hu, rfl⟩ := h
    obtain ⟨h1, h2, _⟩ := create_accounted B sig dir name mode s u r hB hu ha
    exact ⟨h1, h2⟩
  | mkdir sig dir name mode =>
    simp only [Op.step, Option.map_eq_some', assoofs_mkdir] at h
    obtain ⟨⟨r, u⟩, hu, rfl⟩ := h
    obtain ⟨h1, h2, _⟩ := create_accounted B sig dir name _ s u r hB hu ha
    exact ⟨h1, h2⟩
  | write sig filp buf ppos =>
    have hho := step_handed_out_once B _ s t h ha.2.2.2.2.1
    simp only [Op.step, Option.map_eq_some'] at h
    obtain ⟨⟨r, p, u⟩, hu, rfl⟩ := h
    obtain ⟨hsb, hno, hmu⟩ := write_numbers sig filp buf ppos s u r p hu
    obtain ⟨_, _, hff⟩ := write_some sig filp buf ppos s u r p hu
    obtain ⟨hn, h1, hm, hle, _, hlt⟩ := ha
    dsimp only at hsb hno hmu hff hho ⊢
    refine ⟨⟨?_, by rw [hsb]; exact h1, hmu hm, by rw [hsb, hff]; exact hle, hho,
      by rw [hff]; exact hlt⟩, by rw [hsb]⟩
    unfold numbered
    rw [hsb]
    exact ⟨hn.1, fun k hk => by rw [hno k hk]; exact hn.2 k hk⟩
  | lookup _ _ =>
    simp only [Op.step, Option.some.injEq] at h
    subst h
    exact ⟨ha, le_refl _⟩
  | read _ _ _ =>
    simp only [Op.step, Option.some.injEq] at h
    subst h
    exact ⟨ha, le_refl _⟩
  | iterate _ _ =>
    simp only [Op.step, Option.some.injEq] at h
    subst h
    exact ⟨ha, le_refl _⟩

theorem mutex_unlock_accounted (B : Build) (m : Mutex) (s : Fs) (ha : accounted B s) :
    accounted B (mutex_unlock m s) := by
  obtain ⟨hn, h1, hm, hle, hho, hlt⟩ := ha
  refine ⟨mutex_unlock_numbered m s hn, by simpa [mutex_unlock] using h1, ?_,
    by simpa [mutex_unlock] using hle,
    handed_out_once_congr B s _ (by simp [mutex_unlock]) (by simp [mutex_unlock]) hho,
    by simpa [mutex_unlock] using hlt⟩
  cases m <;> simp [mutex_unlock, Fs.set_lock, hm]

theorem fresh_mount_accounted (B : Build) (s : Fs) (h : is_fresh_mount s) : accounted B s := by
  obtain ⟨⟨hc, h0⟩, _, hm, _, hff⟩ := h
  refine ⟨⟨by rw [hc]; norm_num, ?_⟩, by rw [hc], hm, by rw [hc]; omega, ?_, ?_⟩
  · intro k hk
    rw [hc] at hk
    have : k = 0 := by omega
    rw [this, h0]
  · unfold handed_out_once
    rw [hff]
    simp
  · rw [hff]
    simp

theorem operated_from_fresh_accounted (H : Header) (B : Build) (s : Fs)
    (hB : B.ASSOOFS_START_INO = B.ASSOOFS_RESERVED_INODES) (h : operated_from_fresh H B s) :
    accounted B s := by
  induction h with
  | fresh s hf => exact fresh_mount_accounted B s hf
  | step s t op _ _ hst ih => exact (step_accounted B op s t hB hst ih).1
  | release s m _ ih => exact mutex_unlock_accounted B m s ih

/-- C20: on a build with reserved offset 1, in every state reached from a freshly mounted
filesystem by requests that return (of any kind and with any outcome, their stores inside
the data blocks): the inode numbers of the live slots are pairwise distinct, the root
inode has number 1, no such request lowers `inodes_count`, and a call of `assoofs_create`
that returns 0 makes `inodes_count` exactly one larger. -/
theorem inode_numbers_distinct_and_counted (H : Header) (B : Build) (s : Fs)
    (hB : B.ASSOOFS_START_INO = B.ASSOOFS_RESERVED_INODES) (h : operated_from_fresh H B s) :
    (∀ j k, j < s.sb.inodes_count → k < s.sb.inodes_count →
      (s.inode_store j).inode_no = (s.inode_store k).inode_no → j = k) ∧
    (0 < s.sb.inodes_count ∧ (s.inode_store 0).inode_no = 1) ∧
    (∀ op t, Op.in_data_blocks H s op = true → Op.step B s op = some t →
      s.sb.inodes_count ≤ t.sb.inodes_count) ∧
    (∀ sig dir name mode t, Op.in_data_blocks H s (Op.create sig dir name mode) = true →
      assoofs_create B sig dir name mode s = some (0, t) →
      t.sb.inodes_count = s.sb.inodes_count + 1) := by
  have ha := operated_from_fresh_accounted H B s hB h
  have hn := ha.1
  have h1 := ha.2.1
  refine ⟨?_, ⟨h1, ?_⟩, ?_, ?_⟩
  · intro j k hj hk hjk
    rw [hn.2 j hj, hn.2 k hk] at hjk
    omega
  · rw [hn.2 0 h1]
  · intro op t _ hst
    exact (step_accounted B op s t hB hst ha).2
  · intro sig dir name mode t _ hc
    exact (create_accounted B sig dir name mode s t 0 hB hc ha).2.2 rfl

theorem operated_from_fresh_run (H : Header) (B : Build) (ops : List Op) (s : Fs)
    (h : operated_from_fresh H B s) (hadm : admissible H B ops s = true) :
    operated_from_fresh H B (run B ops s) := by
  induction ops generalizing s with
  | nil => exact h
  | cons op ops ih =>
    unfold admissible at hadm
    unfold run
    cases hst : op.step B s with
    | none => exact h
    | some s1 =>
      rw [hst, Bool.and_eq_true] at hadm
      exact ih s1 (operated_from_fresh.step s s1 op h hadm.1 hst) hadm.2

/-- C20, instance: the state after the first file is created on a fresh mount, on
`build_x86`. -/
theorem inode_numbers_distinct_and_counted_witness :
    (∀ j k, j < one_file_fs.sb.inodes_count → k < one_file_fs.sb.inodes_count →
      (one_file_fs.inode_store j).inode_no = (one_file_fs.inode_store k).inode_no → j = k) ∧
    (0 < one_file_fs.sb.inodes_count ∧ (one_file_fs.inode_store 0).inode_no = 1) ∧
    (∀ op t, Op.in_data_blocks header_4096 one_file_fs op = true →
      Op.step build_x86 one_file_fs op = some t →
      one_file_fs.sb.inodes_count ≤ t.sb.inodes_count) ∧
    (∀ sig dir name mode t,
      Op.in_data_blocks header_4096 one_file_fs (Op.create sig dir name mode) = true →
      assoofs_create build_x86 sig dir name mode one_file_fs = some (0, t) →
      t.sb.inodes_count = one_file_fs.sb.inodes_count + 1) :=
  inode_numbers_distinct_and_counted header_4096 build_x86 one_file_fs rfl
    (operated_from_fresh_run header_4096 build_x86 _ _
      (operated_from_fresh.fresh _ ⟨⟨rfl, rfl⟩, rfl, rfl, rfl, rfl⟩) (by decide))

/-! ### C11: successive creations in one directory -/

/-- C11 (the code departs from the claim).  Two successive creations in the root of the
fresh filesystem, on `build_x86`: the first returns 0 and keeps
`assoofs_directory_children_update_lock`, so the second never returns, or returns `-EINTR`
when a signal interrupts its wait; either way the root has 1 child, not 2, and
`assoofs_iterate` from position 0 yields the first entry only.  When the mutex is released
between the two calls, the root has 2 children and `assoofs_iterate` yields both entries in
call order. -/
theorem second_create_is_lost :
    (assoofs_create build_x86 false 0 "a" S_IFREG (fresh_fs (2 ^ 64 - 8))).map
      (fun r => r.1) = some 0 ∧
    (assoofs_create build_x86 false 0 "b" S_IFREG
      (run build_x86 [Op.create false 0 "a" S_IFREG] (fresh_fs (2 ^ 64 - 8)))).isNone = true ∧
    (assoofs_create build_x86 true 0 "b" S_IFREG
      (run build_x86 [Op.create false 0 "a" S_IFREG] (fresh_fs (2 ^ 64 - 8)))).map
      (fun r => r.1) = some (-EINTR) ∧
    ((run build_x86 [Op.create false 0 "a" S_IFREG, Op.create false 0 "b" S_IFREG]
      (fresh_fs (2 ^ 64 - 8))).inode_store 0).dir_children_count = 1 ∧
    assoofs_iterate header_4096 0 0
      (run build_x86 [Op.create false 0 "a" S_IFREG, Op.create false 0 "b" S_IFREG]
        (fresh_fs (2 ^ 64 - 8))) = (0, [("a", 2)], 264) ∧
    ((run build_x86 [Op.create false 0 "a" S_IFREG, Op.create true 0 "b" S_IFREG]
      (fresh_fs (2 ^ 64 - 8))).inode_store 0).dir_children_count = 1 ∧
    assoofs_iterate header_4096 0 0
      (run build_x86 [Op.create false 0 "a" S_IFREG, Op.create true 0 "b" S_IFREG]
        (fresh_fs (2 ^ 64 - 8))) = (0, [("a", 2)], 264) ∧
    ((run build_x86 [Op.create false 0 "b" S_IFREG]
      (mutex_unlock Mutex.assoofs_directory_children_update_lock
        (run build_x86 [Op.create false 0 "a" S_IFREG]
          (fresh_fs (2 ^ 64 - 8))))).inode_store 0).dir_children_count = 2 ∧
    assoofs_iterate header_4096 0 0
      (run build_x86 [Op.create false 0 "b" S_IFREG]
        (mutex_unlock Mutex.assoofs_directory_children_update_lock
          (run build_x86 [Op.create false 0 "a" S_IFREG] (fresh_fs (2 ^ 64 - 8))))) =
      (0, [("a", 2), ("b", 3)], 528) := by
  decide

/-! ### C6: the append has no capacity check -/

end Assoofs
